import Mathlib

/-!
# morilog/retry: the retry executor

A shallow embedding of `retry.go` and the properties of its control loop.

## Modelling conventions

* A Go `error` is `Option ε`: `none` is `nil`, `some e` a non-nil error.
* The operation, the stop predicate and the hook are Go closures over mutable
  state, and the context is cancelled from outside.  Each is modelled by the
  answers it gives: `operation i` is what the `i`-th call (counted from 0) of
  the operation returns, `f i err` what the `i`-th call of the stop predicate
  returns on `err`, `h i n` what the `i`-th call of the hook returns on attempt
  number `n`, and `ctx i d` tells whether the `i`-th `select` of duration `d`
  takes the `<-ctx.Done()` branch (`true`) or the `<-time.After(d)` branch.
  Which branch Go allows is `selectMay`: it depends on which of the two
  channels can proceed when the `select` is entered (`Channels`).
* `Retry` returns, next to the Go result, the log of everything the loop did,
  in order; the number of calls made so far is read off that log.
* `int`, `int64` and `time.Duration` are 64 bits wide: integers are `Int`,
  wrapped by `wrap64` where the source computes; `uint8` is a `Nat` below 256.
* Options are the values built by the five exported constructors (the type
  `config` is unexported, so no other package can write an option by hand).
-/

namespace retry

variable {ε : Type}

/-! ## Machine integers -/

/-- The value of an integer read as a signed 64-bit two's complement number. -/
def wrap64 (x : Int) : Int := (x + 2 ^ 63) % 2 ^ 64 - 2 ^ 63

/-- The constant `time.Millisecond`, in nanoseconds. -/
def Millisecond : Int := 1000000

/-! ## Defaults and configuration (retry.go, lines 8-21) -/

/-- The constant `DefaultAttempts uint8 = 10`. -/
def DefaultAttempts : Nat := 10

/-- The constant `DefaultDelay = time.Millisecond * 100`. -/
def DefaultDelay : Int := Millisecond * 100

/-- The constant `DefaultDelayFactor = 1`. -/
def DefaultDelayFactor : Int := 1

/-- The type `StopRetryIfFunc`: the answer of the `i`-th call on an error. -/
abbrev StopRetryIfFunc (ε : Type) := Nat → ε → Bool

/-- The type `OnRetryFunc`: the answer of the `i`-th call on an attempt number. -/
abbrev OnRetryFunc (ε : Type) := Nat → Int → Option ε

/-- The struct `config`; a `nil` function field is `none`. -/
structure config (ε : Type) where
  maxAttempts : Nat
  delay : Int
  delayFactor : Int
  stopRetryIf : Option (StopRetryIfFunc ε)
  onRetry : Option (OnRetryFunc ε)

/-- The type `Option`: a function that manipulates a `config`. -/
abbrev RetryOption (ε : Type) := config ε → config ε

/-- The option `MaxAttempts(attempts uint8)`. -/
def MaxAttempts (attempts : Nat) : RetryOption ε :=
  fun c => { c with maxAttempts := attempts % 256 }

/-- The option `Delay(delay time.Duration)`. -/
def Delay (delay : Int) : RetryOption ε :=
  fun c => { c with delay := wrap64 delay }

/-- The option `DelayFactor(factor int)`. -/
def DelayFactor (factor : Int) : RetryOption ε :=
  fun c => { c with delayFactor := wrap64 factor }

/-- The option `StopRetryIf(fn)`; `fn` may be `nil`. -/
def StopRetryIf (fn : Option (StopRetryIfFunc ε)) : RetryOption ε :=
  fun c => { c with stopRetryIf := fn }

/-- The option `OnRetry(fn)`; `fn` may be `nil`. -/
def OnRetry (fn : Option (OnRetryFunc ε)) : RetryOption ε :=
  fun c => { c with onRetry := fn }

/-- The configuration `Retry` starts from (retry.go, lines 81-85). -/
def defaultConfig : config ε :=
  { maxAttempts := DefaultAttempts
    delay := DefaultDelay
    delayFactor := DefaultDelayFactor
    stopRetryIf := none
    onRetry := none }

/-- The loop `for _, opt := range opts { opt(cfg) }` (retry.go, lines 87-89). -/
def applyOptions : List (RetryOption ε) → config ε → config ε
  | [], cfg => cfg
  | opt :: opts, cfg => applyOptions opts (opt cfg)

/-- The configuration `Retry` runs with (retry.go, lines 81-89). -/
def resolveConfig (opts : List (RetryOption ε)) : config ε :=
  applyOptions opts defaultConfig

/-- A call of one of the five exported option constructors. -/
inductive OptionCall (ε : Type) where
  | maxAttempts (n : Nat)
  | delay (d : Int)
  | delayFactor (f : Int)
  | stopRetryIf (fn : Option (StopRetryIfFunc ε))
  | onRetry (fn : Option (OnRetryFunc ε))

/-- The option a constructor call builds. -/
def OptionCall.build : OptionCall ε → RetryOption ε
  | .maxAttempts n => MaxAttempts n
  | .delay d => Delay d
  | .delayFactor f => DelayFactor f
  | .stopRetryIf fn => StopRetryIf fn
  | .onRetry fn => OnRetry fn

/-- The field of `config` a constructor call assigns: 0 `maxAttempts`, 1 `delay`,
2 `delayFactor`, 3 `stopRetryIf`, 4 `onRetry`. -/
def OptionCall.field : OptionCall ε → Nat
  | .maxAttempts _ => 0
  | .delay _ => 1
  | .delayFactor _ => 2
  | .stopRetryIf _ => 3
  | .onRetry _ => 4

/-! ## The log of a run -/

/-- One thing the loop of `Retry` does. -/
inductive Event (ε : Type) where
  /-- The call `operation()` and what it returned. -/
  | operation (result : Option ε)
  /-- The call `cfg.stopRetryIf(ctx, err)` and what it returned. -/
  | stopRetryIf (err : ε) (result : Bool)
  /-- The call `cfg.onRetry(ctx, attempt+1)` and what it returned. -/
  | onRetry (attempt : Int) (result : Option ε)
  /-- The `select` on a timer of duration `d`; `done` when `ctx.Done()` won. -/
  | wait (d : Int) (done : Bool)
  deriving DecidableEq, Repr

/-- The results of the calls of the operation, in order. -/
def opResults (log : List (Event ε)) : List (Option ε) :=
  log.filterMap fun ev => match ev with
    | .operation r => some r
    | _ => none

/-- The errors the stop predicate was called on, in order. -/
def stopArgs (log : List (Event ε)) : List ε :=
  log.filterMap fun ev => match ev with
    | .stopRetryIf e _ => some e
    | _ => none

/-- The attempt numbers the hook was called on, in order. -/
def hookArgs (log : List (Event ε)) : List Int :=
  log.filterMap fun ev => match ev with
    | .onRetry n _ => some n
    | _ => none

/-- The durations of the waits that were issued, in order. -/
def waits (log : List (Event ε)) : List Int :=
  log.filterMap fun ev => match ev with
    | .wait d _ => some d
    | _ => none

/-- The durations of the waits whose timer elapsed, in order. -/
def elapsedWaits (log : List (Event ε)) : List Int :=
  log.filterMap fun ev => match ev with
    | .wait d false => some d
    | _ => none

/-- The waits of a log, each paired with the number of calls of the operation
made before it was issued; `n` is the number of calls made before the log. -/
def waitsAfter : List (Event ε) → Nat → List (Nat × Int)
  | [], _ => []
  | Event.operation _ :: log, n => waitsAfter log (n + 1)
  | Event.wait d _ :: log, n => (n, d) :: waitsAfter log n
  | Event.stopRetryIf _ _ :: log, n => waitsAfter log n
  | Event.onRetry _ _ :: log, n => waitsAfter log n

/-! ## The loop of `Retry` (retry.go, lines 91-119) -/

/-- The duration `cfg.delay * time.Duration((attempt+1)*cfg.delayFactor)`
(retry.go, line 113), for the 0-based loop counter `attempt`. -/
def waitDuration (cfg : config ε) (attempt : Nat) : Int :=
  wrap64 (cfg.delay * wrap64 (((attempt : Int) + 1) * cfg.delayFactor))

/-- The block `if cfg.stopRetryIf != nil { ... }` (retry.go, lines 98-102):
whether the loop breaks, and the log after it. -/
def checkStop (cfg : config ε) (err : ε) (log : List (Event ε)) :
    Bool × List (Event ε) :=
  match cfg.stopRetryIf with
  | none => (false, log)
  | some fn =>
    let b := fn (stopArgs log).length err
    (b, log ++ [Event.stopRetryIf err b])

/-- The block `if cfg.onRetry != nil { ... }` (retry.go, lines 104-108): the
error of the hook, if it was called and returned one, and the log after it. -/
def callOnRetry (cfg : config ε) (attempt : Nat) (log : List (Event ε)) :
    Option ε × List (Event ε) :=
  match cfg.onRetry with
  | none => (none, log)
  | some fn =>
    let r := fn (hookArgs log).length ((attempt : Int) + 1)
    (r, log ++ [Event.onRetry ((attempt : Int) + 1) r])

/-- The loop `for attempt := 0; attempt < int(cfg.maxAttempts); attempt++`
followed by `return err` (retry.go, lines 92-118).  `fuel` bounds the number
of iterations; `Retry` gives it `cfg.maxAttempts`, which the loop never
exceeds. -/
def retryLoop (cfg : config ε) (ctx : Nat → Int → Bool) (operation : Nat → Option ε) :
    Nat → Nat → Option ε → List (Event ε) → Option ε × List (Event ε)
  | 0, _, err, log => (err, log)
  | fuel + 1, attempt, err, log =>
    if attempt < cfg.maxAttempts then
      let r := operation (opResults log).length
      let log1 := log ++ [Event.operation r]
      match r with
      | none => (none, log1)
      | some e =>
        match checkStop cfg e log1 with
        | (true, log2) => (some e, log2)
        | (false, log2) =>
          match callOnRetry cfg attempt log2 with
          | (some herr, log3) => (some herr, log3)
          | (none, log3) =>
            let d := waitDuration cfg attempt
            let done := ctx (waits log3).length d
            let log4 := log3 ++ [Event.wait d done]
            if done then (some e, log4)
            else retryLoop cfg ctx operation fuel (attempt + 1) (some e) log4
    else (err, log)

/-- The function `Retry`: the error it returns and the log of the run. -/
def Retry (ctx : Nat → Int → Bool) (operation : Nat → Option ε)
    (opts : List (RetryOption ε)) : Option ε × List (Event ε) :=
  let cfg := resolveConfig opts
  retryLoop cfg ctx operation cfg.maxAttempts 0 none []

/-! ## The `select` statement of retry.go, lines 110-115 -/

/-- The two channels of the `select` at the moment the statement is entered:
whether `ctx.Done()` can proceed (the context is done already), whether the
channel of `time.After(d)` can proceed (the timer is due already), and whether
the context is done before the timer is due. -/
structure Channels where
  doneReady : Bool
  timerReady : Bool
  doneFirst : Bool
  deriving DecidableEq, Repr

/-- Go's `select` on the two channels: whether the statement may take the
`<-ctx.Done()` branch (`branch = true`) or the timer branch (`branch = false`).
When exactly one channel can proceed on entry, its branch is taken; when both
can, either branch may be taken (the choice is pseudo-random); when neither
can, the statement blocks and takes the branch of the channel that proceeds
first. -/
def selectMay (ch : Channels) (branch : Bool) : Bool :=
  match ch.doneReady, ch.timerReady with
  | true, false => branch
  | false, true => !branch
  | true, true => true
  | false, false => branch == ch.doneFirst

/-! ## The runs of retry_test.go -/

/-- The errors of retry_test.go: `errProcess` and `errAnother`. -/
inductive TestErr where
  | errProcess
  | errAnother
  deriving DecidableEq, Repr

/-- A context that is never cancelled (`context.Background()`). -/
def background : Nat → Int → Bool := fun _ _ => false

/-- An operation that fails with `errProcess` on every call. -/
def alwaysFails : Nat → Option TestErr := fun _ => some TestErr.errProcess

/-- An operation that fails on its first `n` calls and succeeds afterwards. -/
def failsFirst (n : Nat) : Nat → Option TestErr :=
  fun i => if i < n then some TestErr.errProcess else none

/-- A hook that records nothing and returns `nil`. -/
def hookNil : OnRetryFunc TestErr := fun _ _ => none

/-- The operation of the test "Should stop when error is not process error":
`errProcess` on the first two calls, `errAnother` afterwards. -/
def failsThenAnother : Nat → Option TestErr :=
  fun i => if i < 2 then some TestErr.errProcess else some TestErr.errAnother

/-- The stop predicate of that test: `errors.Is(err, errAnother)`. -/
def stopOnAnother : StopRetryIfFunc TestErr :=
  fun _ err => decide (err = TestErr.errAnother)

/-- A hook that returns `nil` on its first two calls and `errAnother` afterwards. -/
def hookVetoThird : OnRetryFunc TestErr :=
  fun i _ => if i < 2 then none else some TestErr.errAnother

/-- A context that is done during the third wait and not before. -/
def doneAtThird : Nat → Int → Bool := fun i _ => decide (2 ≤ i)

/-- A run in which every `select` takes the `<-ctx.Done()` branch; under a
context that is done before `Retry` is called this is the only run when no timer
is due on entering a `select`, and one of the possible runs otherwise. -/
def alreadyDone : Nat → Int → Bool := fun _ _ => true

/-- The channels under a context that is cancelled before `Retry` is called:
`ctx.Done()` can proceed at every `select`, before any timer; a timer whose
duration is zero or negative is due at once. -/
def cancelledBefore : Nat → Int → Channels := fun _ d => ⟨true, decide (d ≤ 0), true⟩

/-- A run in which `select` takes the timer branch whenever the duration of the
timer is zero or negative, and the `<-ctx.Done()` branch otherwise. -/
def timerWhenDue : Nat → Int → Bool := fun _ d => decide (0 < d)

/-- The channels of a `select` that blocks until the context is done, the timer
not being due yet. -/
def doneWhileWaiting : Channels := ⟨false, false, true⟩

/-- A stop predicate that answers `true` on every error. -/
def stopAlways : StopRetryIfFunc TestErr := fun _ _ => true

/-- A hook that returns `errAnother` on every call. -/
def hookAlwaysErr : OnRetryFunc TestErr := fun _ _ => some TestErr.errAnother

/-- The number of calls of the operation that returned an error. -/
def failedCalls (log : List (Event ε)) : Nat :=
  ((opResults log).filter (fun r => r.isSome)).length

/-- The argument of a `Delay` or `DelayFactor` call is a non-negative 64-bit
value; calls of the other constructors are not constrained. -/
def OptionCall.nonNegative : OptionCall ε → Prop
  | .delay d => 0 ≤ d ∧ d < 2 ^ 63
  | .delayFactor f => 0 ≤ f ∧ f < 2 ^ 63
  | _ => True

/-- The list of attempt numbers `1, 2, ..., n`. -/
def oneTo (n : Nat) : List Int := (List.range n).map (fun i : Nat => (i : Int) + 1)

/-! ## Auxiliary notions for the proofs -/

/-- The calls counted in the log agree with the loop counter `attempt`. -/
structure InSync (cfg : config ε) (attempt : Nat) (log : List (Event ε)) : Prop where
  op : (opResults log).length = attempt
  stop : ∀ f, cfg.stopRetryIf = some f → (stopArgs log).length = attempt
  hook : ∀ h, cfg.onRetry = some h → (hookArgs log).length = attempt
  wait : (waits log).length = attempt

/-- Iteration `a` of the loop runs to its end and the loop goes on: the
operation fails, the stop predicate (if any) answers `false`, the hook (if
any) returns `nil` and the timer elapses before the context is done. -/
def Continues (cfg : config ε) (ctx : Nat → Int → Bool) (operation : Nat → Option ε)
    (a : Nat) : Prop :=
  ∃ e, operation a = some e ∧ (∀ f, cfg.stopRetryIf = some f → f a e = false) ∧
    (∀ h, cfg.onRetry = some h → h a ((a : Int) + 1) = none) ∧
    ctx a (waitDuration cfg a) = false

/-- The event of a stop predicate (if any) that answers `false` on `e`. -/
def stopLog (cfg : config ε) (e : ε) : List (Event ε) :=
  match cfg.stopRetryIf with
  | none => []
  | some _ => [Event.stopRetryIf e false]

/-- The event of a hook (if any) that returns `nil` in iteration `a`. -/
def hookLog (cfg : config ε) (a : Nat) : List (Event ε) :=
  match cfg.onRetry with
  | none => []
  | some _ => [Event.onRetry ((a : Int) + 1) none]

/-- The events of iteration `a` when it fails with `e` and the loop goes on. -/
def iterationLog (cfg : config ε) (a : Nat) (e : ε) : List (Event ε) :=
  [Event.operation (some e)] ++ stopLog cfg e ++ hookLog cfg a
    ++ [Event.wait (waitDuration cfg a) false]

/-- The events of the first `k` iterations when each fails and the loop goes on. -/
def firstLog (cfg : config ε) (operation : Nat → Option ε) : Nat → List (Event ε)
  | 0 => []
  | k + 1 => firstLog cfg operation k ++
      (match operation k with
       | some e => iterationLog cfg k e
       | none => [])

/-- The value of the variable `err` after `k` iterations. -/
def lastErr (operation : Nat → Option ε) : Nat → Option ε
  | 0 => none
  | k + 1 => operation k

/-! ## Lemmas on logs -/

theorem getLast?_append_snoc {α : Type} (l₁ l₂ : List α) (x : α) :
    (l₁ ++ (l₂ ++ [x])).getLast? = some x := by
  rw [← List.append_assoc]
  simp

@[simp]
theorem opResults_nil : opResults ([] : List (Event ε)) = [] := rfl
@[simp]
theorem stopArgs_nil : stopArgs ([] : List (Event ε)) = [] := rfl
@[simp]
theorem hookArgs_nil : hookArgs ([] : List (Event ε)) = [] := rfl
@[simp]
theorem waits_nil : waits ([] : List (Event ε)) = [] := rfl
@[simp]
theorem elapsedWaits_nil : elapsedWaits ([] : List (Event ε)) = [] := rfl

@[simp]
theorem opResults_append (l₁ l₂ : List (Event ε)) :
    opResults (l₁ ++ l₂) = opResults l₁ ++ opResults l₂ := by
  simp [opResults]

@[simp]
theorem stopArgs_append (l₁ l₂ : List (Event ε)) :
    stopArgs (l₁ ++ l₂) = stopArgs l₁ ++ stopArgs l₂ := by
  simp [stopArgs]

@[simp]
theorem hookArgs_append (l₁ l₂ : List (Event ε)) :
    hookArgs (l₁ ++ l₂) = hookArgs l₁ ++ hookArgs l₂ := by
  simp [hookArgs]

@[simp]
theorem waits_append (l₁ l₂ : List (Event ε)) :
    waits (l₁ ++ l₂) = waits l₁ ++ waits l₂ := by
  simp [waits]

@[simp]
theorem elapsedWaits_append (l₁ l₂ : List (Event ε)) :
    elapsedWaits (l₁ ++ l₂) = elapsedWaits l₁ ++ elapsedWaits l₂ := by
  simp [elapsedWaits]

@[simp]
theorem opResults_cons (ev : Event ε) (l : List (Event ε)) :
    opResults (ev :: l) =
      (match ev with
       | .operation r => [r]
       | _ => []) ++ opResults l := by
  cases ev <;> simp [opResults, List.filterMap_cons]

@[simp]
theorem stopArgs_cons (ev : Event ε) (l : List (Event ε)) :
    stopArgs (ev :: l) =
      (match ev with
       | .stopRetryIf e _ => [e]
       | _ => []) ++ stopArgs l := by
  cases ev <;> simp [stopArgs, List.filterMap_cons]

@[simp]
theorem hookArgs_cons (ev : Event ε) (l : List (Event ε)) :
    hookArgs (ev :: l) =
      (match ev with
       | .onRetry n _ => [n]
       | _ => []) ++ hookArgs l := by
  cases ev <;> simp [hookArgs, List.filterMap_cons]

@[simp]
theorem waits_cons (ev : Event ε) (l : List (Event ε)) :
    waits (ev :: l) =
      (match ev with
       | .wait d _ => [d]
       | _ => []) ++ waits l := by
  cases ev <;> simp [waits, List.filterMap_cons]

@[simp]
theorem elapsedWaits_cons (ev : Event ε) (l : List (Event ε)) :
    elapsedWaits (ev :: l) =
      (match ev with
       | .wait d false => [d]
       | _ => []) ++ elapsedWaits l := by
  cases ev with
  | wait d b => cases b <;> simp [elapsedWaits, List.filterMap_cons]
  | _ => simp [elapsedWaits, List.filterMap_cons]

theorem opResults_iterationLog (cfg : config ε) (a : Nat) (e : ε) :
    opResults (iterationLog cfg a e) = [some e] := by
  unfold iterationLog stopLog hookLog
  cases cfg.stopRetryIf <;> cases cfg.onRetry <;> simp

theorem waits_iterationLog (cfg : config ε) (a : Nat) (e : ε) :
    waits (iterationLog cfg a e) = [waitDuration cfg a] := by
  unfold iterationLog stopLog hookLog
  cases cfg.stopRetryIf <;> cases cfg.onRetry <;> simp

theorem elapsedWaits_iterationLog (cfg : config ε) (a : Nat) (e : ε) :
    elapsedWaits (iterationLog cfg a e) = [waitDuration cfg a] := by
  unfold iterationLog stopLog hookLog
  cases cfg.stopRetryIf <;> cases cfg.onRetry <;> simp

theorem hookArgs_iterationLog_some (cfg : config ε) (a : Nat) (e : ε) (h : OnRetryFunc ε)
    (hh : cfg.onRetry = some h) : hookArgs (iterationLog cfg a e) = [(a : Int) + 1] := by
  unfold iterationLog stopLog hookLog
  rw [hh]
  cases cfg.stopRetryIf <;> simp

theorem hookArgs_iterationLog_none (cfg : config ε) (a : Nat) (e : ε)
    (hh : cfg.onRetry = none) : hookArgs (iterationLog cfg a e) = [] := by
  unfold iterationLog stopLog hookLog
  rw [hh]
  cases cfg.stopRetryIf <;> simp

theorem stopArgs_iterationLog_some (cfg : config ε) (a : Nat) (e : ε) (f : StopRetryIfFunc ε)
    (hf : cfg.stopRetryIf = some f) : stopArgs (iterationLog cfg a e) = [e] := by
  unfold iterationLog stopLog hookLog
  rw [hf]
  cases cfg.onRetry <;> simp

/-! ## One iteration of the loop -/

theorem retryLoop_exit (cfg : config ε) (ctx : Nat → Int → Bool) (operation : Nat → Option ε)
    (fuel a : Nat) (err : Option ε) (log : List (Event ε)) (ha : cfg.maxAttempts ≤ a) :
    retryLoop cfg ctx operation fuel a err log = (err, log) := by
  cases fuel with
  | zero => rfl
  | succ n => simp [retryLoop, Nat.not_lt.mpr ha]

theorem retryLoop_success (cfg : config ε) (ctx : Nat → Int → Bool) (operation : Nat → Option ε)
    (fuel a : Nat) (err : Option ε) (log : List (Event ε)) (hs : InSync cfg a log)
    (ha : a < cfg.maxAttempts) (hop : operation a = none) :
    retryLoop cfg ctx operation (fuel + 1) a err log = (none, log ++ [Event.operation none]) := by
  simp [retryLoop, ha, hs.op, hop]

theorem checkStop_eq (cfg : config ε) (a : Nat) (e : ε) (log : List (Event ε))
    (hn : ∀ f, cfg.stopRetryIf = some f → (stopArgs log).length = a) :
    checkStop cfg e log =
      (match cfg.stopRetryIf with
       | none => (false, log)
       | some f => (f a e, log ++ [Event.stopRetryIf e (f a e)])) := by
  unfold checkStop
  cases hf : cfg.stopRetryIf with
  | none => rfl
  | some f => simp [hn f hf]

theorem callOnRetry_eq (cfg : config ε) (a : Nat) (log : List (Event ε))
    (hn : ∀ h, cfg.onRetry = some h → (hookArgs log).length = a) :
    callOnRetry cfg a log =
      (match cfg.onRetry with
       | none => (none, log)
       | some h => (h a ((a : Int) + 1), log ++ [Event.onRetry ((a : Int) + 1) (h a ((a : Int) + 1))])) := by
  unfold callOnRetry
  cases hh : cfg.onRetry with
  | none => rfl
  | some h => simp [hn h hh]

theorem retryLoop_continue (cfg : config ε) (ctx : Nat → Int → Bool)
    (operation : Nat → Option ε) (fuel a : Nat) (err : Option ε) (log : List (Event ε))
    (e : ε) (hs : InSync cfg a log) (ha : a < cfg.maxAttempts) (hop : operation a = some e)
    (hstop : ∀ f, cfg.stopRetryIf = some f → f a e = false)
    (hhook : ∀ h, cfg.onRetry = some h → h a ((a : Int) + 1) = none)
    (hctx : ctx a (waitDuration cfg a) = false) :
    retryLoop cfg ctx operation (fuel + 1) a err log =
      retryLoop cfg ctx operation fuel (a + 1) (some e) (log ++ iterationLog cfg a e) := by
  rw [retryLoop]
  simp only [ha, if_true, hs.op, hop]
  rw [checkStop_eq cfg a e _ (by intro f hf; simpa using hs.stop f hf)]
  cases hf : cfg.stopRetryIf with
  | none =>
    simp only
    rw [callOnRetry_eq cfg a _ (by intro h hh; simpa using hs.hook h hh)]
    cases hh : cfg.onRetry with
    | none => simp [iterationLog, stopLog, hookLog, hf, hh, hs.wait, hctx]
    | some h => simp [iterationLog, stopLog, hookLog, hf, hh, hs.wait, hctx, hhook h hh]
  | some f =>
    simp only [hstop f hf]
    rw [callOnRetry_eq cfg a _ (by intro h hh; simpa using hs.hook h hh)]
    cases hh : cfg.onRetry with
    | none => simp [iterationLog, stopLog, hookLog, hf, hh, hs.wait, hctx]
    | some h => simp [iterationLog, stopLog, hookLog, hf, hh, hs.wait, hctx, hhook h hh]

theorem retryLoop_stop (cfg : config ε) (ctx : Nat → Int → Bool)
    (operation : Nat → Option ε) (fuel a : Nat) (err : Option ε) (log : List (Event ε))
    (e : ε) (f : StopRetryIfFunc ε) (hs : InSync cfg a log) (ha : a < cfg.maxAttempts)
    (hop : operation a = some e) (hf : cfg.stopRetryIf = some f) (hstop : f a e = true) :
    retryLoop cfg ctx operation (fuel + 1) a err log =
      (some e, log ++ [Event.operation (some e), Event.stopRetryIf e true]) := by
  rw [retryLoop]
  simp only [ha, if_true, hs.op, hop]
  rw [checkStop_eq cfg a e _ (by intro f hf; simpa using hs.stop f hf)]
  simp [hf, hstop]

theorem retryLoop_veto (cfg : config ε) (ctx : Nat → Int → Bool)
    (operation : Nat → Option ε) (fuel a : Nat) (err : Option ε) (log : List (Event ε))
    (e herr : ε) (h : OnRetryFunc ε) (hs : InSync cfg a log) (ha : a < cfg.maxAttempts)
    (hop : operation a = some e)
    (hstop : ∀ f, cfg.stopRetryIf = some f → f a e = false)
    (hh : cfg.onRetry = some h) (hhook : h a ((a : Int) + 1) = some herr) :
    retryLoop cfg ctx operation (fuel + 1) a err log =
      (some herr, log ++ ([Event.operation (some e)] ++ stopLog cfg e
        ++ [Event.onRetry ((a : Int) + 1) (some herr)])) := by
  rw [retryLoop]
  simp only [ha, if_true, hs.op, hop]
  rw [checkStop_eq cfg a e _ (by intro f hf; simpa using hs.stop f hf)]
  cases hf : cfg.stopRetryIf with
  | none =>
    simp only
    rw [callOnRetry_eq cfg a _ (by intro h hh; simpa using hs.hook h hh)]
    simp [stopLog, hf, hh, hhook]
  | some f =>
    simp only [hstop f hf]
    rw [callOnRetry_eq cfg a _ (by intro h hh; simpa using hs.hook h hh)]
    simp [stopLog, hf, hh, hhook]

theorem retryLoop_cancel (cfg : config ε) (ctx : Nat → Int → Bool)
    (operation : Nat → Option ε) (fuel a : Nat) (err : Option ε) (log : List (Event ε))
    (e : ε) (hs : InSync cfg a log) (ha : a < cfg.maxAttempts) (hop : operation a = some e)
    (hstop : ∀ f, cfg.stopRetryIf = some f → f a e = false)
    (hhook : ∀ h, cfg.onRetry = some h → h a ((a : Int) + 1) = none)
    (hctx : ctx a (waitDuration cfg a) = true) :
    retryLoop cfg ctx operation (fuel + 1) a err log =
      (some e, log ++ ([Event.operation (some e)] ++ stopLog cfg e ++ hookLog cfg a
        ++ [Event.wait (waitDuration cfg a) true])) := by
  rw [retryLoop]
  simp only [ha, if_true, hs.op, hop]
  rw [checkStop_eq cfg a e _ (by intro f hf; simpa using hs.stop f hf)]
  cases hf : cfg.stopRetryIf with
  | none =>
    simp only
    rw [callOnRetry_eq cfg a _ (by intro h hh; simpa using hs.hook h hh)]
    cases hh : cfg.onRetry with
    | none => simp [stopLog, hookLog, hf, hh, hs.wait, hctx]
    | some h => simp [stopLog, hookLog, hf, hh, hs.wait, hctx, hhook h hh]
  | some f =>
    simp only [hstop f hf]
    rw [callOnRetry_eq cfg a _ (by intro h hh; simpa using hs.hook h hh)]
    cases hh : cfg.onRetry with
    | none => simp [stopLog, hookLog, hf, hh, hs.wait, hctx]
    | some h => simp [stopLog, hookLog, hf, hh, hs.wait, hctx, hhook h hh]

/-! ## The fuel of the loop is enough -/

/-- Once the fuel covers the iterations that are left, more fuel changes nothing:
the loop ends by its own condition `attempt < maxAttempts`, never for lack of
fuel. -/
theorem retryLoop_fuel_add (cfg : config ε) (ctx : Nat → Int → Bool)
    (operation : Nat → Option ε) (extra fuel a : Nat) (err : Option ε)
    (log : List (Event ε)) (hfuel : cfg.maxAttempts ≤ a + fuel) :
    retryLoop cfg ctx operation (fuel + extra) a err log =
      retryLoop cfg ctx operation fuel a err log := by
  induction fuel generalizing a err log with
  | zero =>
    rw [retryLoop_exit cfg ctx operation _ a err log (by omega)]
    rfl
  | succ fuel ih =>
    rw [show fuel + 1 + extra = fuel + extra + 1 by omega]
    have ih' : ∀ (e : Option ε) (l : List (Event ε)),
        retryLoop cfg ctx operation (fuel + extra) (a + 1) e l =
          retryLoop cfg ctx operation fuel (a + 1) e l :=
      fun e l => ih (a + 1) e l (by omega)
    simp only [retryLoop, ih']

/-- The run of `Retry` is the run of its loop with any larger bound on the number
of iterations. -/
theorem Retry_fuel (ctx : Nat → Int → Bool) (operation : Nat → Option ε)
    (opts : List (RetryOption ε)) (extra : Nat) :
    retryLoop (resolveConfig opts) ctx operation ((resolveConfig opts).maxAttempts + extra)
      0 none [] = Retry ctx operation opts :=
  retryLoop_fuel_add (resolveConfig opts) ctx operation extra _ 0 none [] (by omega)

/-! ## The first iterations of a run -/

theorem firstLog_succ (cfg : config ε) (operation : Nat → Option ε) (k : Nat) (e : ε)
    (hop : operation k = some e) :
    firstLog cfg operation (k + 1) = firstLog cfg operation k ++ iterationLog cfg k e := by
  simp [firstLog, hop]

theorem opResults_firstLog (cfg : config ε) (operation : Nat → Option ε) (k : Nat)
    (hfail : ∀ i, i < k → operation i ≠ none) :
    opResults (firstLog cfg operation k) = (List.range k).map operation := by
  induction k with
  | zero => rfl
  | succ k ih =>
    obtain ⟨e, he⟩ := Option.ne_none_iff_exists'.mp (hfail k (Nat.lt_succ_self k))
    rw [firstLog_succ cfg operation k e he, opResults_append,
      ih (fun i hi => hfail i (Nat.lt_succ_of_lt hi)), opResults_iterationLog,
      List.range_succ, List.map_append]
    simp [he]

theorem waits_firstLog (cfg : config ε) (operation : Nat → Option ε) (k : Nat)
    (hfail : ∀ i, i < k → operation i ≠ none) :
    waits (firstLog cfg operation k) = (List.range k).map (waitDuration cfg) := by
  induction k with
  | zero => rfl
  | succ k ih =>
    obtain ⟨e, he⟩ := Option.ne_none_iff_exists'.mp (hfail k (Nat.lt_succ_self k))
    rw [firstLog_succ cfg operation k e he, waits_append,
      ih (fun i hi => hfail i (Nat.lt_succ_of_lt hi)), waits_iterationLog,
      List.range_succ, List.map_append]
    rfl

theorem elapsedWaits_firstLog (cfg : config ε) (operation : Nat → Option ε) (k : Nat)
    (hfail : ∀ i, i < k → operation i ≠ none) :
    elapsedWaits (firstLog cfg operation k) = (List.range k).map (waitDuration cfg) := by
  induction k with
  | zero => rfl
  | succ k ih =>
    obtain ⟨e, he⟩ := Option.ne_none_iff_exists'.mp (hfail k (Nat.lt_succ_self k))
    rw [firstLog_succ cfg operation k e he, elapsedWaits_append,
      ih (fun i hi => hfail i (Nat.lt_succ_of_lt hi)), elapsedWaits_iterationLog,
      List.range_succ, List.map_append]
    rfl

theorem hookArgs_firstLog_some (cfg : config ε) (operation : Nat → Option ε) (k : Nat)
    (h : OnRetryFunc ε) (hh : cfg.onRetry = some h)
    (hfail : ∀ i, i < k → operation i ≠ none) :
    hookArgs (firstLog cfg operation k) = oneTo k := by
  unfold oneTo
  induction k with
  | zero => rfl
  | succ k ih =>
    obtain ⟨e, he⟩ := Option.ne_none_iff_exists'.mp (hfail k (Nat.lt_succ_self k))
    rw [firstLog_succ cfg operation k e he, hookArgs_append,
      ih (fun i hi => hfail i (Nat.lt_succ_of_lt hi)), hookArgs_iterationLog_some cfg k e h hh,
      List.range_succ, List.map_append]
    rfl

theorem hookArgs_firstLog_none (cfg : config ε) (operation : Nat → Option ε) (k : Nat)
    (hh : cfg.onRetry = none) : hookArgs (firstLog cfg operation k) = [] := by
  induction k with
  | zero => rfl
  | succ k ih =>
    cases he : operation k with
    | none => simp [firstLog, he, ih]
    | some e => simp [firstLog, he, ih, hookArgs_iterationLog_none cfg k e hh]

theorem stopArgs_firstLog_length (cfg : config ε) (operation : Nat → Option ε) (k : Nat)
    (f : StopRetryIfFunc ε) (hf : cfg.stopRetryIf = some f)
    (hfail : ∀ i, i < k → operation i ≠ none) :
    (stopArgs (firstLog cfg operation k)).length = k := by
  induction k with
  | zero => rfl
  | succ k ih =>
    obtain ⟨e, he⟩ := Option.ne_none_iff_exists'.mp (hfail k (Nat.lt_succ_self k))
    rw [firstLog_succ cfg operation k e he, stopArgs_append, List.length_append,
      ih (fun i hi => hfail i (Nat.lt_succ_of_lt hi)), stopArgs_iterationLog_some cfg k e f hf]
    rfl

theorem inSync_firstLog (cfg : config ε) (operation : Nat → Option ε) (k : Nat)
    (hfail : ∀ i, i < k → operation i ≠ none) :
    InSync cfg k (firstLog cfg operation k) where
  op := by simp [opResults_firstLog cfg operation k hfail]
  stop := fun f hf => stopArgs_firstLog_length cfg operation k f hf hfail
  hook := fun h hh => by simp [hookArgs_firstLog_some cfg operation k h hh hfail, oneTo]
  wait := by simp [waits_firstLog cfg operation k hfail]

theorem Continues.ne_none {cfg : config ε} {ctx : Nat → Int → Bool}
    {operation : Nat → Option ε} {a : Nat} (hc : Continues cfg ctx operation a) :
    operation a ≠ none := by
  obtain ⟨e, he, _⟩ := hc
  simp [he]

/-- After `k` iterations that all go on, the loop stands at counter `k` with the
log `firstLog k`. -/
theorem retryLoop_first (cfg : config ε) (ctx : Nat → Int → Bool)
    (operation : Nat → Option ε) (k : Nat) (hk : k ≤ cfg.maxAttempts)
    (hc : ∀ i, i < k → Continues cfg ctx operation i) (fuel : Nat) :
    retryLoop cfg ctx operation (fuel + k) 0 none [] =
      retryLoop cfg ctx operation fuel k (lastErr operation k) (firstLog cfg operation k) := by
  induction k generalizing fuel with
  | zero => rfl
  | succ k ih =>
    have hc' : ∀ i, i < k → Continues cfg ctx operation i :=
      fun i hi => hc i (Nat.lt_succ_of_lt hi)
    have h1 := ih (Nat.le_of_succ_le hk) hc' (fuel + 1)
    rw [show fuel + (k + 1) = fuel + 1 + k by omega, h1]
    obtain ⟨e, he, hstop, hhook, hctx⟩ := hc k (Nat.lt_succ_self k)
    rw [retryLoop_continue cfg ctx operation fuel k _ _ e
      (inSync_firstLog cfg operation k (fun i hi => (hc' i hi).ne_none)) hk he hstop hhook hctx,
      firstLog_succ cfg operation k e he]
    simp [lastErr, he]

/-! ## The five ways a run ends -/

theorem continues_of (cfg : config ε) (ctx : Nat → Int → Bool) (operation : Nat → Option ε)
    (j : Nat) (hfail : ∀ i, i < j → operation i ≠ none)
    (hstop : ∀ f, cfg.stopRetryIf = some f →
      ∀ i e, i < j → operation i = some e → f i e = false)
    (hhook : ∀ h, cfg.onRetry = some h → ∀ i n, i < j → h i n = none)
    (hctx : ∀ i d, i < j → ctx i d = false) :
    ∀ i, i < j → Continues cfg ctx operation i := by
  intro i hi
  obtain ⟨e, he⟩ := Option.ne_none_iff_exists'.mp (hfail i hi)
  exact ⟨e, he, fun f hf => hstop f hf i e hi he, fun h hh => hhook h hh i _ hi,
    hctx i _ hi⟩

theorem Retry_first (ctx : Nat → Int → Bool) (operation : Nat → Option ε)
    (opts : List (RetryOption ε)) (j : Nat) (hj : j ≤ (resolveConfig opts).maxAttempts)
    (hc : ∀ i, i < j → Continues (resolveConfig opts) ctx operation i) :
    Retry ctx operation opts =
      retryLoop (resolveConfig opts) ctx operation ((resolveConfig opts).maxAttempts - j) j
        (lastErr operation j) (firstLog (resolveConfig opts) operation j) := by
  have h := retryLoop_first (resolveConfig opts) ctx operation j hj hc
    ((resolveConfig opts).maxAttempts - j)
  rw [Nat.sub_add_cancel hj] at h
  exact h

theorem Retry_success_eq (ctx : Nat → Int → Bool) (operation : Nat → Option ε)
    (opts : List (RetryOption ε)) (j : Nat) (hj : j < (resolveConfig opts).maxAttempts)
    (hc : ∀ i, i < j → Continues (resolveConfig opts) ctx operation i)
    (hop : operation j = none) :
    Retry ctx operation opts =
      (none, firstLog (resolveConfig opts) operation j ++ [Event.operation none]) := by
  rw [Retry_first ctx operation opts j (Nat.le_of_lt hj) hc,
    show (resolveConfig opts).maxAttempts - j = (resolveConfig opts).maxAttempts - j - 1 + 1 by
      omega]
  exact retryLoop_success _ ctx operation _ j _ _
    (inSync_firstLog _ operation j (fun i hi => (hc i hi).ne_none)) hj hop

theorem Retry_exhaust_eq (ctx : Nat → Int → Bool) (operation : Nat → Option ε)
    (opts : List (RetryOption ε))
    (hc : ∀ i, i < (resolveConfig opts).maxAttempts →
      Continues (resolveConfig opts) ctx operation i) :
    Retry ctx operation opts =
      (lastErr operation (resolveConfig opts).maxAttempts,
        firstLog (resolveConfig opts) operation (resolveConfig opts).maxAttempts) := by
  rw [Retry_first ctx operation opts _ (Nat.le_refl _) hc]
  exact retryLoop_exit _ ctx operation _ _ _ _ (Nat.le_refl _)

theorem Retry_stop_eq (ctx : Nat → Int → Bool) (operation : Nat → Option ε)
    (opts : List (RetryOption ε)) (j : Nat) (e : ε) (f : StopRetryIfFunc ε)
    (hj : j < (resolveConfig opts).maxAttempts)
    (hc : ∀ i, i < j → Continues (resolveConfig opts) ctx operation i)
    (hop : operation j = some e) (hf : (resolveConfig opts).stopRetryIf = some f)
    (hstop : f j e = true) :
    Retry ctx operation opts =
      (some e, firstLog (resolveConfig opts) operation j ++
        [Event.operation (some e), Event.stopRetryIf e true]) := by
  rw [Retry_first ctx operation opts j (Nat.le_of_lt hj) hc,
    show (resolveConfig opts).maxAttempts - j = (resolveConfig opts).maxAttempts - j - 1 + 1 by
      omega]
  exact retryLoop_stop _ ctx operation _ j _ _ e f
    (inSync_firstLog _ operation j (fun i hi => (hc i hi).ne_none)) hj hop hf hstop

theorem Retry_veto_eq (ctx : Nat → Int → Bool) (operation : Nat → Option ε)
    (opts : List (RetryOption ε)) (j : Nat) (e herr : ε) (h : OnRetryFunc ε)
    (hj : j < (resolveConfig opts).maxAttempts)
    (hc : ∀ i, i < j → Continues (resolveConfig opts) ctx operation i)
    (hop : operation j = some e)
    (hstop : ∀ f, (resolveConfig opts).stopRetryIf = some f → f j e = false)
    (hh : (resolveConfig opts).onRetry = some h) (hhook : h j ((j : Int) + 1) = some herr) :
    Retry ctx operation opts =
      (some herr, firstLog (resolveConfig opts) operation j ++
        ([Event.operation (some e)] ++ stopLog (resolveConfig opts) e
          ++ [Event.onRetry ((j : Int) + 1) (some herr)])) := by
  rw [Retry_first ctx operation opts j (Nat.le_of_lt hj) hc,
    show (resolveConfig opts).maxAttempts - j = (resolveConfig opts).maxAttempts - j - 1 + 1 by
      omega]
  exact retryLoop_veto _ ctx operation _ j _ _ e herr h
    (inSync_firstLog _ operation j (fun i hi => (hc i hi).ne_none)) hj hop hstop hh hhook

theorem Retry_cancel_eq (ctx : Nat → Int → Bool) (operation : Nat → Option ε)
    (opts : List (RetryOption ε)) (j : Nat) (e : ε)
    (hj : j < (resolveConfig opts).maxAttempts)
    (hc : ∀ i, i < j → Continues (resolveConfig opts) ctx operation i)
    (hop : operation j = some e)
    (hstop : ∀ f, (resolveConfig opts).stopRetryIf = some f → f j e = false)
    (hhook : ∀ h, (resolveConfig opts).onRetry = some h → h j ((j : Int) + 1) = none)
    (hctx : ctx j (waitDuration (resolveConfig opts) j) = true) :
    Retry ctx operation opts =
      (some e, firstLog (resolveConfig opts) operation j ++
        ([Event.operation (some e)] ++ stopLog (resolveConfig opts) e
          ++ hookLog (resolveConfig opts) j
          ++ [Event.wait (waitDuration (resolveConfig opts) j) true])) := by
  rw [Retry_first ctx operation opts j (Nat.le_of_lt hj) hc,
    show (resolveConfig opts).maxAttempts - j = (resolveConfig opts).maxAttempts - j - 1 + 1 by
      omega]
  exact retryLoop_cancel _ ctx operation _ j _ _ e
    (inSync_firstLog _ operation j (fun i hi => (hc i hi).ne_none)) hj hop hstop hhook hctx

/-! ## C1: success short-circuit -/

/-- C1. If the first `k - 1` calls of the operation fail and the `k`-th returns
`nil`, with `1 ≤ k ≤ N = maxAttempts`, the stop predicate (if any) answers `false`
on those failures, the hook (if any) returns `nil` and the context is not done
during those waits, then `Retry` returns `nil`, has called the operation exactly
`k` times, the hook (if any) exactly on `1, ..., k - 1` in that order, and the
last thing it did is the successful call. -/
theorem success_short_circuit (ctx : Nat → Int → Bool) (operation : Nat → Option ε)
    (opts : List (RetryOption ε)) (N k : Nat)
    (hN : (resolveConfig opts).maxAttempts = N) (hk1 : 1 ≤ k) (hkN : k ≤ N)
    (hfail : ∀ i, i < k - 1 → operation i ≠ none)
    (hsucc : operation (k - 1) = none)
    (hstop : ∀ f, (resolveConfig opts).stopRetryIf = some f →
      ∀ i e, i < k - 1 → operation i = some e → f i e = false)
    (hhook : ∀ h, (resolveConfig opts).onRetry = some h → ∀ i n, i < k - 1 → h i n = none)
    (hctx : ∀ i d, i < k - 1 → ctx i d = false) :
    (Retry ctx operation opts).1 = none ∧
    (opResults (Retry ctx operation opts).2).length = k ∧
    (∀ h, (resolveConfig opts).onRetry = some h →
      hookArgs (Retry ctx operation opts).2 = oneTo (k - 1)) ∧
    ((resolveConfig opts).onRetry = none → hookArgs (Retry ctx operation opts).2 = []) ∧
    (Retry ctx operation opts).2.getLast? = some (Event.operation none) := by
  obtain ⟨j, rfl⟩ : ∃ j, k = j + 1 := ⟨k - 1, by omega⟩
  simp only [Nat.add_sub_cancel] at hfail hsucc hstop hhook hctx ⊢
  have hc := continues_of (resolveConfig opts) ctx operation j hfail hstop hhook hctx
  rw [Retry_success_eq ctx operation opts j (by omega) hc hsucc]
  refine ⟨rfl, ?_, ?_, ?_, ?_⟩
  · simp [opResults_firstLog _ operation j hfail]
  · intro h hh
    simp [hookArgs_firstLog_some _ operation j h hh hfail]
  · intro hh
    simp [hookArgs_firstLog_none _ operation j hh]
  · simp

/-- C1 on the run of the test "Should succeed on third try": three failures, then
success, with `MaxAttempts(4)` and a hook. -/
theorem success_short_circuit_witness :
    (Retry background (failsFirst 3) [MaxAttempts 4, OnRetry (some hookNil)]).1 = none ∧
    (opResults
      (Retry background (failsFirst 3) [MaxAttempts 4, OnRetry (some hookNil)]).2).length = 4 ∧
    hookArgs (Retry background (failsFirst 3) [MaxAttempts 4, OnRetry (some hookNil)]).2
      = [1, 2, 3] := by
  have h := success_short_circuit background (failsFirst 3)
    [MaxAttempts 4, OnRetry (some hookNil)] 4 4 rfl (by decide) (by decide)
    (by intro i hi; simp only [Nat.add_one_sub_one] at hi; simp [failsFirst, hi])
    (by simp [failsFirst])
    (by intro f hf; simp [resolveConfig, applyOptions, MaxAttempts, OnRetry, defaultConfig] at hf)
    (by intro h hh i n _; have hh2 : some hookNil = some h := hh; cases hh2; rfl)
    (by intro i d _; rfl)
  exact ⟨h.1, h.2.1, h.2.2.1 hookNil rfl⟩

/-- Whatever the operation, the stop predicate, the hook and the context answer,
one iteration ends in one of five ways. -/
theorem retryLoop_succ_cases (cfg : config ε) (ctx : Nat → Int → Bool)
    (operation : Nat → Option ε) (fuel a : Nat) (err : Option ε) (log : List (Event ε))
    (ha : a < cfg.maxAttempts) :
    retryLoop cfg ctx operation (fuel + 1) a err log = (none, log ++ [Event.operation none]) ∨
    ∃ e,
      retryLoop cfg ctx operation (fuel + 1) a err log =
        (some e, log ++ [Event.operation (some e), Event.stopRetryIf e true]) ∨
      (∃ herr, retryLoop cfg ctx operation (fuel + 1) a err log =
        (some herr, log ++ ([Event.operation (some e)] ++ stopLog cfg e
          ++ [Event.onRetry ((a : Int) + 1) (some herr)]))) ∨
      retryLoop cfg ctx operation (fuel + 1) a err log =
        (some e, log ++ ([Event.operation (some e)] ++ stopLog cfg e ++ hookLog cfg a
          ++ [Event.wait (waitDuration cfg a) true])) ∨
      retryLoop cfg ctx operation (fuel + 1) a err log =
        retryLoop cfg ctx operation fuel (a + 1) (some e) (log ++ iterationLog cfg a e) := by
  rw [retryLoop]
  simp only [ha, if_true]
  cases hop : operation (opResults log).length with
  | none => exact Or.inl rfl
  | some e =>
    refine Or.inr ⟨e, ?_⟩
    simp only [checkStop, callOnRetry, iterationLog, stopLog, hookLog]
    cases hf : cfg.stopRetryIf with
    | none =>
      cases hh : cfg.onRetry with
      | none =>
        simp only
        cases hctx : ctx (waits (log ++ [Event.operation (some e)])).length (waitDuration cfg a)
          <;> simp
      | some h =>
        simp only
        cases hr : h (hookArgs (log ++ [Event.operation (some e)])).length ((a : Int) + 1) with
        | some herr => simp
        | none =>
          simp only
          cases hctx : ctx (waits ((log ++ [Event.operation (some e)]) ++
            [Event.onRetry ((a : Int) + 1) none])).length (waitDuration cfg a) <;> simp
    | some f =>
      simp only
      cases hb : f (stopArgs (log ++ [Event.operation (some e)])).length e with
      | true => simp
      | false =>
        cases hh : cfg.onRetry with
        | none =>
          simp only
          cases hctx : ctx (waits ((log ++ [Event.operation (some e)]) ++
            [Event.stopRetryIf e false])).length (waitDuration cfg a) <;> simp
        | some h =>
          simp only
          cases hr : h (hookArgs ((log ++ [Event.operation (some e)]) ++
            [Event.stopRetryIf e false])).length ((a : Int) + 1) with
          | some herr => simp
          | none =>
            simp only
            cases hctx : ctx (waits (((log ++ [Event.operation (some e)]) ++
              [Event.stopRetryIf e false]) ++ [Event.onRetry ((a : Int) + 1) none])).length
              (waitDuration cfg a) <;> simp

/-! ## Options leave the other fields alone -/

theorem applyOptions_maxAttempts (calls : List (OptionCall ε)) (cfg : config ε)
    (h : ∀ c, c ∈ calls → c.field ≠ 0) :
    (applyOptions (calls.map OptionCall.build) cfg).maxAttempts = cfg.maxAttempts := by
  induction calls generalizing cfg with
  | nil => rfl
  | cons c cs ih =>
    simp only [List.map_cons, applyOptions]
    rw [ih _ (fun c' hc' => h c' (List.mem_cons_of_mem _ hc'))]
    have hc := h c (List.mem_cons_self _ _)
    cases c <;> first | rfl | exact absurd rfl hc

theorem applyOptions_delay (calls : List (OptionCall ε)) (cfg : config ε)
    (h : ∀ c, c ∈ calls → c.field ≠ 1) :
    (applyOptions (calls.map OptionCall.build) cfg).delay = cfg.delay := by
  induction calls generalizing cfg with
  | nil => rfl
  | cons c cs ih =>
    simp only [List.map_cons, applyOptions]
    rw [ih _ (fun c' hc' => h c' (List.mem_cons_of_mem _ hc'))]
    have hc := h c (List.mem_cons_self _ _)
    cases c <;> first | rfl | exact absurd rfl hc

theorem applyOptions_delayFactor (calls : List (OptionCall ε)) (cfg : config ε)
    (h : ∀ c, c ∈ calls → c.field ≠ 2) :
    (applyOptions (calls.map OptionCall.build) cfg).delayFactor = cfg.delayFactor := by
  induction calls generalizing cfg with
  | nil => rfl
  | cons c cs ih =>
    simp only [List.map_cons, applyOptions]
    rw [ih _ (fun c' hc' => h c' (List.mem_cons_of_mem _ hc'))]
    have hc := h c (List.mem_cons_self _ _)
    cases c <;> first | rfl | exact absurd rfl hc

theorem applyOptions_stopRetryIf (calls : List (OptionCall ε)) (cfg : config ε)
    (h : ∀ c, c ∈ calls → c.field ≠ 3) :
    (applyOptions (calls.map OptionCall.build) cfg).stopRetryIf = cfg.stopRetryIf := by
  induction calls generalizing cfg with
  | nil => rfl
  | cons c cs ih =>
    simp only [List.map_cons, applyOptions]
    rw [ih _ (fun c' hc' => h c' (List.mem_cons_of_mem _ hc'))]
    have hc := h c (List.mem_cons_self _ _)
    cases c <;> first | rfl | exact absurd rfl hc

theorem applyOptions_onRetry (calls : List (OptionCall ε)) (cfg : config ε)
    (h : ∀ c, c ∈ calls → c.field ≠ 4) :
    (applyOptions (calls.map OptionCall.build) cfg).onRetry = cfg.onRetry := by
  induction calls generalizing cfg with
  | nil => rfl
  | cons c cs ih =>
    simp only [List.map_cons, applyOptions]
    rw [ih _ (fun c' hc' => h c' (List.mem_cons_of_mem _ hc'))]
    have hc := h c (List.mem_cons_self _ _)
    cases c <;> first | rfl | exact absurd rfl hc

theorem oneTo_succ (n : Nat) : oneTo (n + 1) = oneTo n ++ [(n : Int) + 1] := by
  simp [oneTo, List.range_succ]

theorem oneTo_length (n : Nat) : (oneTo n).length = n := by
  simp [oneTo]

/-! ## C2: exhaustion -/

/-- C2. If every one of the `N = maxAttempts ≥ 1` calls of the operation fails,
the stop predicate (if any) answers `false`, the hook returns `nil` and the
context is never done during a wait, then `Retry` returns the non-nil error of
the `N`-th call, has called the operation exactly `N` times and the hook exactly
on `1, ..., N` in order.  When no option sets `maxAttempts`, `N` is 10 and the
last argument of the hook is 10; when `N = 1` the operation is called once and
the hook once, on 1. -/
theorem exhaustion (ctx : Nat → Int → Bool) (operation : Nat → Option ε)
    (opts : List (RetryOption ε)) (N : Nat) (h : OnRetryFunc ε)
    (hN : (resolveConfig opts).maxAttempts = N) (hN1 : 1 ≤ N)
    (hfail : ∀ i, i < N → operation i ≠ none)
    (hstop : ∀ f, (resolveConfig opts).stopRetryIf = some f →
      ∀ i e, i < N → operation i = some e → f i e = false)
    (hh : (resolveConfig opts).onRetry = some h)
    (hhook : ∀ i n, i < N → h i n = none)
    (hctx : ∀ i d, i < N → ctx i d = false) :
    (Retry ctx operation opts).1 = operation (N - 1) ∧
    (Retry ctx operation opts).1 ≠ none ∧
    (opResults (Retry ctx operation opts).2).length = N ∧
    hookArgs (Retry ctx operation opts).2 = oneTo N ∧
    (∀ calls : List (OptionCall ε), opts = calls.map OptionCall.build →
      (∀ c, c ∈ calls → c.field ≠ 0) →
      N = 10 ∧ (hookArgs (Retry ctx operation opts).2).getLast? = some 10) ∧
    (N = 1 → (opResults (Retry ctx operation opts).2).length = 1 ∧
      hookArgs (Retry ctx operation opts).2 = [1]) := by
  obtain ⟨j, rfl⟩ : ∃ j, N = j + 1 := ⟨N - 1, by omega⟩
  have hc := continues_of (resolveConfig opts) ctx operation (j + 1) hfail hstop
    (fun h' hh' => by
      have : h' = h := Option.some.inj (hh'.symm.trans hh)
      subst this
      exact hhook) hctx
  have hrun := Retry_exhaust_eq ctx operation opts (by rw [hN]; exact hc)
  rw [hN] at hrun
  have hargs : hookArgs (Retry ctx operation opts).2 = oneTo (j + 1) := by
    rw [hrun]
    exact hookArgs_firstLog_some _ operation (j + 1) h hh hfail
  have hops : (opResults (Retry ctx operation opts).2).length = j + 1 := by
    rw [hrun]
    simp [opResults_firstLog _ operation (j + 1) hfail]
  refine ⟨?_, ?_, hops, hargs, ?_, ?_⟩
  · rw [hrun]
    rfl
  · rw [hrun]
    exact hfail j (Nat.lt_succ_self j)
  · intro calls hcalls hnone
    have h10 : j + 1 = 10 := by
      rw [← hN, hcalls]
      exact applyOptions_maxAttempts calls defaultConfig hnone
    refine ⟨h10, ?_⟩
    rw [hargs, oneTo_succ, List.getLast?_append]
    have : (j : Int) + 1 = 10 := by exact_mod_cast h10
    simp [this]
  · intro h1
    have hj : j = 0 := by omega
    subst hj
    exact ⟨hops, hargs⟩

/-- C2 on the run of the test "Should attempts 10 times as default": an operation
that always fails, `Delay(10ms)` and a hook. -/
theorem exhaustion_witness :
    (Retry background alwaysFails [Delay (10 * Millisecond), OnRetry (some hookNil)]).1
      = some TestErr.errProcess ∧
    (opResults
      (Retry background alwaysFails [Delay (10 * Millisecond), OnRetry (some hookNil)]).2).length
      = 10 ∧
    hookArgs (Retry background alwaysFails [Delay (10 * Millisecond), OnRetry (some hookNil)]).2
      = [1, 2, 3, 4, 5, 6, 7, 8, 9, 10] := by
  have h := exhaustion background alwaysFails
    [Delay (10 * Millisecond), OnRetry (some hookNil)] 10 hookNil rfl (by decide)
    (by intro i _; simp [alwaysFails])
    (by intro f hf; simp [resolveConfig, applyOptions, Delay, OnRetry, defaultConfig] at hf)
    rfl
    (by intro i n _; rfl)
    (by intro i d _; rfl)
  exact ⟨h.1, h.2.2.1, h.2.2.2.1⟩

/-! ## C3: early stop -/

/-- C3. If attempt `j` (`1 ≤ j ≤ maxAttempts`) is the first failed attempt on
whose error the stop predicate answers `true` (the attempts before failed, the
stop predicate answered `false`, the hook returned `nil` and the waits elapsed),
then `Retry` returns the error of attempt `j`, has called the operation exactly
`j` times, the hook (if any) exactly on `1, ..., j - 1`, has waited `j - 1`
times, and the last thing it did is the call of the stop predicate. -/
theorem early_stop (ctx : Nat → Int → Bool) (operation : Nat → Option ε)
    (opts : List (RetryOption ε)) (j : Nat) (e : ε) (f : StopRetryIfFunc ε)
    (hj1 : 1 ≤ j) (hjN : j ≤ (resolveConfig opts).maxAttempts)
    (hf : (resolveConfig opts).stopRetryIf = some f)
    (hfail : ∀ i, i < j - 1 → operation i ≠ none)
    (hnostop : ∀ i e', i < j - 1 → operation i = some e' → f i e' = false)
    (hop : operation (j - 1) = some e) (hstop : f (j - 1) e = true)
    (hhook : ∀ h, (resolveConfig opts).onRetry = some h → ∀ i n, i < j - 1 → h i n = none)
    (hctx : ∀ i d, i < j - 1 → ctx i d = false) :
    (Retry ctx operation opts).1 = some e ∧
    (opResults (Retry ctx operation opts).2).length = j ∧
    (∀ h, (resolveConfig opts).onRetry = some h →
      hookArgs (Retry ctx operation opts).2 = oneTo (j - 1)) ∧
    ((resolveConfig opts).onRetry = none → hookArgs (Retry ctx operation opts).2 = []) ∧
    (waits (Retry ctx operation opts).2).length = j - 1 ∧
    (Retry ctx operation opts).2.getLast? = some (Event.stopRetryIf e true) := by
  obtain ⟨k, rfl⟩ : ∃ k, j = k + 1 := ⟨j - 1, by omega⟩
  simp only [Nat.add_sub_cancel] at hfail hnostop hop hstop hhook hctx ⊢
  have hc := continues_of (resolveConfig opts) ctx operation k hfail
    (fun f' hf' => by
      have : f' = f := Option.some.inj (hf'.symm.trans hf)
      subst this
      exact hnostop) hhook hctx
  rw [Retry_stop_eq ctx operation opts k e f (by omega) hc hop hf hstop]
  refine ⟨rfl, ?_, ?_, ?_, ?_, ?_⟩
  · simp [opResults_firstLog _ operation k hfail]
  · intro h hh
    simp [hookArgs_firstLog_some _ operation k h hh hfail]
  · intro hh
    simp [hookArgs_firstLog_none _ operation k hh]
  · simp [waits_firstLog _ operation k hfail]
  · simp [List.getLast?_append]

/-- C3 on the run of the test "Should stop when error is not process error". -/
theorem early_stop_witness :
    (Retry background failsThenAnother [StopRetryIf (some stopOnAnother)]).1
      = some TestErr.errAnother ∧
    (opResults
      (Retry background failsThenAnother [StopRetryIf (some stopOnAnother)]).2).length = 3 ∧
    (waits (Retry background failsThenAnother [StopRetryIf (some stopOnAnother)]).2).length
      = 2 := by
  have h := early_stop background failsThenAnother [StopRetryIf (some stopOnAnother)] 3
    TestErr.errAnother stopOnAnother (by decide) (by decide) rfl
    (by intro i hi; simp only [Nat.add_one_sub_one] at hi; simp [failsThenAnother, hi])
    (by
      intro i e' hi he'
      simp only [Nat.add_one_sub_one] at hi
      simp only [failsThenAnother, hi, if_true, Option.some.injEq] at he'
      subst he'
      rfl)
    rfl rfl
    (by intro h hh; simp [resolveConfig, applyOptions, StopRetryIf, defaultConfig] at hh)
    (by intro i d _; rfl)
  exact ⟨h.1, h.2.1, h.2.2.2.2.1⟩

/-! ## C4: hook veto -/

/-- C4. If the hook first returns a non-nil error `herr` on attempt `m`
(`1 ≤ m ≤ maxAttempts`; the attempts up to `m` failed, the stop predicate
answered `false` on them, the hook returned `nil` before and the earlier waits
elapsed), then `Retry` returns `herr`, has called the operation exactly `m`
times, has waited `m - 1` times, and the last thing it did is that call of the
hook: no wait follows attempt `m`. -/
theorem hook_veto (ctx : Nat → Int → Bool) (operation : Nat → Option ε)
    (opts : List (RetryOption ε)) (m : Nat) (herr : ε) (h : OnRetryFunc ε)
    (hm1 : 1 ≤ m) (hmN : m ≤ (resolveConfig opts).maxAttempts)
    (hh : (resolveConfig opts).onRetry = some h)
    (hfail : ∀ i, i < m → operation i ≠ none)
    (hstop : ∀ f, (resolveConfig opts).stopRetryIf = some f →
      ∀ i e, i < m → operation i = some e → f i e = false)
    (hnil : ∀ i n, i < m - 1 → h i n = none)
    (hveto : h (m - 1) (m : Int) = some herr)
    (hctx : ∀ i d, i < m - 1 → ctx i d = false) :
    (Retry ctx operation opts).1 = some herr ∧
    (opResults (Retry ctx operation opts).2).length = m ∧
    (waits (Retry ctx operation opts).2).length = m - 1 ∧
    (Retry ctx operation opts).2.getLast? = some (Event.onRetry (m : Int) (some herr)) := by
  obtain ⟨k, rfl⟩ : ∃ k, m = k + 1 := ⟨m - 1, by omega⟩
  simp only [Nat.add_sub_cancel, Nat.cast_add, Nat.cast_one] at hnil hveto hctx ⊢
  have hfail' : ∀ i, i < k → operation i ≠ none := fun i hi => hfail i (Nat.lt_succ_of_lt hi)
  have hc := continues_of (resolveConfig opts) ctx operation k hfail'
    (fun f hf i e hi he => hstop f hf i e (Nat.lt_succ_of_lt hi) he)
    (fun h' hh' => by
      have : h' = h := Option.some.inj (hh'.symm.trans hh)
      subst this
      exact hnil) hctx
  obtain ⟨e, he⟩ := Option.ne_none_iff_exists'.mp (hfail k (Nat.lt_succ_self k))
  rw [Retry_veto_eq ctx operation opts k e herr h (by omega) hc he
    (fun f hf => hstop f hf k e (Nat.lt_succ_self k) he) hh hveto]
  refine ⟨rfl, ?_, ?_, ?_⟩
  · simp only [opResults_append, List.length_append, opResults_firstLog _ operation k hfail']
    unfold stopLog
    cases (resolveConfig opts).stopRetryIf <;> simp
  · simp only [waits_append, List.length_append, waits_firstLog _ operation k hfail']
    unfold stopLog
    cases (resolveConfig opts).stopRetryIf <;> simp
  · exact getLast?_append_snoc _ _ _

/-- C4 on a run where the hook vetoes on the third of ten attempts. -/
theorem hook_veto_witness :
    (Retry background alwaysFails [OnRetry (some hookVetoThird)]).1
      = some TestErr.errAnother ∧
    (opResults (Retry background alwaysFails [OnRetry (some hookVetoThird)]).2).length = 3 ∧
    (waits (Retry background alwaysFails [OnRetry (some hookVetoThird)]).2).length = 2 := by
  have h := hook_veto background alwaysFails [OnRetry (some hookVetoThird)] 3
    TestErr.errAnother hookVetoThird (by decide) (by decide) rfl
    (by intro i _; simp [alwaysFails])
    (by intro f hf; simp [resolveConfig, applyOptions, OnRetry, defaultConfig] at hf)
    (by intro i n hi; simp only [Nat.add_one_sub_one] at hi; simp [hookVetoThird, hi])
    rfl
    (by intro i d _; rfl)
  exact ⟨h.1, h.2.1, h.2.2.1⟩

/-! ## C5: cancellation during a wait -/

theorem selectMay_done (ch : Channels) (branch : Bool) (hsel : selectMay ch branch = true)
    (hfirst : ch.doneFirst = true) (hnotdue : ch.timerReady = false) : branch = true := by
  obtain ⟨dr, tr, df⟩ := ch
  simp only at hfirst hnotdue
  subst hfirst hnotdue
  cases dr <;> cases branch <;> simp [selectMay] at hsel ⊢

/-- C5 as stated fails.  Under a context cancelled before `Retry` is called (so
the signal fires before the first wait elapses) and with `Delay(0)`, both
channels can proceed at every `select`, Go may take the timer branch each time,
and the operation that always fails is then called ten times, not once. -/
theorem cancelled_but_timer_due :
    (∀ i d, selectMay (cancelledBefore i d) (timerWhenDue i d) = true) ∧
    (cancelledBefore 0 0).doneReady = true ∧ (cancelledBefore 0 0).doneFirst = true ∧
    alwaysFails 0 = some TestErr.errProcess ∧
    waits (Retry timerWhenDue alwaysFails [Delay 0]).2 = [0, 0, 0, 0, 0, 0, 0, 0, 0, 0] ∧
    (opResults (Retry timerWhenDue alwaysFails [Delay 0]).2).length = 10 := by
  refine ⟨?_, by decide, by decide, by decide, by decide, by decide⟩
  intro i d
  by_cases hd : d ≤ 0
  · simp [selectMay, cancelledBefore, hd]
  · simp [selectMay, cancelledBefore, timerWhenDue, hd, Int.not_le.mp hd]

/-- C5, amended.  If the context is done before the timer of the wait that
follows failed attempt `j` is due, and that timer is not yet due when the
`select` is entered (`1 ≤ j ≤ maxAttempts`; the attempts up to `j` failed, the
stop predicate answered `false`, the hook returned `nil` and the earlier waits
elapsed), then `Retry` returns the non-nil error of the `j`-th call of the
operation, has called the operation exactly `j` times, and the last thing it did
is that wait. -/
theorem cancellation_during_wait (ctx : Nat → Int → Bool) (operation : Nat → Option ε)
    (opts : List (RetryOption ε)) (j : Nat) (ch : Channels)
    (hj1 : 1 ≤ j) (hjN : j ≤ (resolveConfig opts).maxAttempts)
    (hfail : ∀ i, i < j → operation i ≠ none)
    (hstop : ∀ f, (resolveConfig opts).stopRetryIf = some f →
      ∀ i e, i < j → operation i = some e → f i e = false)
    (hhook : ∀ h, (resolveConfig opts).onRetry = some h → ∀ i n, i < j → h i n = none)
    (hctx : ∀ i d, i < j - 1 → ctx i d = false)
    (hsel : selectMay ch (ctx (j - 1) (waitDuration (resolveConfig opts) (j - 1))) = true)
    (hfirst : ch.doneFirst = true) (hnotdue : ch.timerReady = false) :
    (Retry ctx operation opts).1 = operation (j - 1) ∧
    (Retry ctx operation opts).1 ≠ none ∧
    (opResults (Retry ctx operation opts).2).length = j ∧
    (Retry ctx operation opts).2.getLast?
      = some (Event.wait (waitDuration (resolveConfig opts) (j - 1)) true) := by
  have hdone := selectMay_done ch _ hsel hfirst hnotdue
  obtain ⟨k, rfl⟩ : ∃ k, j = k + 1 := ⟨j - 1, by omega⟩
  simp only [Nat.add_sub_cancel] at hctx hdone ⊢
  have hfail' : ∀ i, i < k → operation i ≠ none := fun i hi => hfail i (Nat.lt_succ_of_lt hi)
  have hc := continues_of (resolveConfig opts) ctx operation k hfail'
    (fun f hf i e hi he => hstop f hf i e (Nat.lt_succ_of_lt hi) he)
    (fun h hh i n hi => hhook h hh i n (Nat.lt_succ_of_lt hi)) hctx
  obtain ⟨e, he⟩ := Option.ne_none_iff_exists'.mp (hfail k (Nat.lt_succ_self k))
  rw [Retry_cancel_eq ctx operation opts k e (by omega) hc he
    (fun f hf => hstop f hf k e (Nat.lt_succ_self k) he)
    (fun h hh => hhook h hh k _ (Nat.lt_succ_self k)) hdone]
  refine ⟨he.symm, by simp, ?_, ?_⟩
  · simp only [opResults_append, List.length_append, opResults_firstLog _ operation k hfail']
    unfold stopLog hookLog
    cases (resolveConfig opts).stopRetryIf <;> cases (resolveConfig opts).onRetry <;> simp
  · exact getLast?_append_snoc _ _ _

/-- C5, amended, on a run where the context is done during the third wait, whose
timer (300ms) is not due when the `select` is entered. -/
theorem cancellation_during_wait_witness :
    (Retry doneAtThird alwaysFails [OnRetry (some hookNil)]).1 = some TestErr.errProcess ∧
    (opResults (Retry doneAtThird alwaysFails [OnRetry (some hookNil)]).2).length = 3 := by
  have h := cancellation_during_wait doneAtThird alwaysFails [OnRetry (some hookNil)] 3
    doneWhileWaiting (by decide) (by decide)
    (by intro i _; simp [alwaysFails])
    (by intro f hf; simp [resolveConfig, applyOptions, OnRetry, defaultConfig] at hf)
    (by intro h hh i n _; have hh2 : some hookNil = some h := hh; cases hh2; rfl)
    (by intro i d hi; simp only [Nat.add_one_sub_one] at hi; simp [doneAtThird]; omega)
    rfl rfl rfl
  exact ⟨h.1, h.2.2.1⟩

/-! ## C6: linear backoff -/

theorem wrap64_eq_self (z : Int) (h1 : -2 ^ 63 ≤ z) (h2 : z < 2 ^ 63) : wrap64 z = z := by
  unfold wrap64
  rw [Int.emod_eq_of_lt (by omega) (by omega)]
  omega

theorem wrap64_mul_wrap64 (x y : Int) : wrap64 (x * wrap64 y) = wrap64 (x * y) := by
  unfold wrap64
  have hy : (y + 2 ^ 63) % 2 ^ 64 = y + 2 ^ 63 - 2 ^ 64 * ((y + 2 ^ 63) / 2 ^ 64) := by
    have := Int.emod_add_ediv (y + 2 ^ 63) (2 ^ 64)
    omega
  rw [hy]
  have hx : x * (y + 2 ^ 63 - 2 ^ 64 * ((y + 2 ^ 63) / 2 ^ 64) - 2 ^ 63) + 2 ^ 63
      = x * y + 2 ^ 63 + 2 ^ 64 * (-(x * ((y + 2 ^ 63) / 2 ^ 64))) := by
    ring
  rw [hx, Int.add_mul_emod_self_left]

/-- The duration of line 113 is the exact product whenever the product fits in
64 bits. -/
theorem waitDuration_eq (cfg : config ε) (attempt : Nat)
    (h1 : -2 ^ 63 ≤ cfg.delay * cfg.delayFactor * ((attempt : Int) + 1))
    (h2 : cfg.delay * cfg.delayFactor * ((attempt : Int) + 1) < 2 ^ 63) :
    waitDuration cfg attempt = cfg.delay * cfg.delayFactor * ((attempt : Int) + 1) := by
  unfold waitDuration
  rw [wrap64_mul_wrap64]
  have h : cfg.delay * (((attempt : Int) + 1) * cfg.delayFactor)
      = cfg.delay * cfg.delayFactor * ((attempt : Int) + 1) := by ring
  rw [h]
  exact wrap64_eq_self _ h1 h2

theorem waitsAfter_append (l₁ l₂ : List (Event ε)) (n : Nat) :
    waitsAfter (l₁ ++ l₂) n = waitsAfter l₁ n ++ waitsAfter l₂ (n + (opResults l₁).length) := by
  induction l₁ generalizing n with
  | nil => simp [waitsAfter]
  | cons ev l ih =>
    cases ev with
    | operation r =>
      have h1 : opResults (Event.operation r :: l) = r :: opResults l := by simp
      show waitsAfter (l ++ l₂) (n + 1) = _
      rw [ih, h1, List.length_cons]
      show _ = waitsAfter l (n + 1) ++ _
      congr 2
      omega
    | stopRetryIf e b => simp [waitsAfter, ih]
    | onRetry m r => simp [waitsAfter, ih]
    | wait d b => simp [waitsAfter, ih]

theorem waitsAfter_stopLog (cfg : config ε) (e : ε) (n : Nat) :
    waitsAfter (stopLog cfg e) n = [] := by
  unfold stopLog
  cases cfg.stopRetryIf <;> rfl

theorem waitsAfter_hookLog (cfg : config ε) (a n : Nat) :
    waitsAfter (hookLog cfg a) n = [] := by
  unfold hookLog
  cases cfg.onRetry <;> rfl

theorem opResults_stopLog (cfg : config ε) (e : ε) : opResults (stopLog cfg e) = [] := by
  unfold stopLog
  cases cfg.stopRetryIf <;> rfl

theorem opResults_hookLog (cfg : config ε) (a : Nat) : opResults (hookLog cfg a) = [] := by
  unfold hookLog
  cases cfg.onRetry <;> rfl

theorem waitsAfter_vetoed (cfg : config ε) (e : ε) (ev : Event ε) (n : Nat)
    (hev : waitsAfter [ev] (n + 1) = []) :
    waitsAfter ([Event.operation (some e)] ++ stopLog cfg e ++ [ev]) n = [] := by
  rw [waitsAfter_append, waitsAfter_append, waitsAfter_stopLog]
  simp [waitsAfter, opResults_stopLog, hev]

theorem waitsAfter_waited (cfg : config ε) (e : ε) (a n : Nat) (d : Int) (b : Bool) :
    waitsAfter ([Event.operation (some e)] ++ stopLog cfg e ++ hookLog cfg a
      ++ [Event.wait d b]) n = [(n + 1, d)] := by
  rw [waitsAfter_append, waitsAfter_append, waitsAfter_append, waitsAfter_stopLog,
    waitsAfter_hookLog]
  simp [waitsAfter, opResults_stopLog, opResults_hookLog]

/-- In every run of the loop, a wait issued after `n` calls of the operation has
the duration computed for the loop counter `n - 1`. -/
theorem retryLoop_waitsAfter (cfg : config ε) (ctx : Nat → Int → Bool)
    (operation : Nat → Option ε) (fuel a : Nat) (err : Option ε) (log : List (Event ε))
    (hop : (opResults log).length = a)
    (hinv : ∀ p, p ∈ waitsAfter log 0 → 1 ≤ p.1 ∧ p.2 = waitDuration cfg (p.1 - 1)) :
    ∀ p, p ∈ waitsAfter (retryLoop cfg ctx operation fuel a err log).2 0 →
      1 ≤ p.1 ∧ p.2 = waitDuration cfg (p.1 - 1) := by
  induction fuel generalizing a err log with
  | zero => exact hinv
  | succ fuel ih =>
    by_cases ha : a < cfg.maxAttempts
    · rcases retryLoop_succ_cases cfg ctx operation fuel a err log ha with
        h | ⟨e, h | ⟨herr, h⟩ | h | h⟩
      · rw [h]
        intro p hp
        rw [waitsAfter_append] at hp
        exact hinv p (by simpa [waitsAfter] using hp)
      · rw [h]
        intro p hp
        rw [waitsAfter_append] at hp
        exact hinv p (by simpa [waitsAfter] using hp)
      · rw [h]
        intro p hp
        rw [waitsAfter_append,
          waitsAfter_vetoed cfg e (Event.onRetry ((a : Int) + 1) (some herr)) _ rfl,
          List.append_nil] at hp
        exact hinv p hp
      · rw [h]
        intro p hp
        rw [waitsAfter_append, waitsAfter_waited, List.mem_append, List.mem_singleton] at hp
        rcases hp with hp | hp
        · exact hinv p hp
        · subst hp
          exact ⟨Nat.succ_le_succ (Nat.zero_le _), by simp [hop]⟩
      · rw [h]
        apply ih
        · simp [iterationLog, opResults_stopLog, opResults_hookLog, hop]
        · intro p hp
          rw [iterationLog, waitsAfter_append, waitsAfter_waited, List.mem_append,
            List.mem_singleton] at hp
          rcases hp with hp | hp
          · exact hinv p hp
          · subst hp
            exact ⟨Nat.succ_le_succ (Nat.zero_le _), by simp [hop]⟩
    · rw [retryLoop_exit cfg ctx operation _ a err log (Nat.le_of_not_lt ha)]
      exact hinv

/-- C6. In every run of `Retry`, a wait that is issued when the operation has
been called `a` times (that is, after the `a`-th failed attempt) has `1 ≤ a` and
lasts exactly `delay * delayFactor * a` nanoseconds, whenever that product fits
in a signed 64-bit integer. -/
theorem linear_backoff (ctx : Nat → Int → Bool) (operation : Nat → Option ε)
    (opts : List (RetryOption ε)) (a : Nat) (d : Int)
    (hwait : (a, d) ∈ waitsAfter (Retry ctx operation opts).2 0)
    (hlo : -2 ^ 63 ≤ (resolveConfig opts).delay * (resolveConfig opts).delayFactor * (a : Int))
    (hhi : (resolveConfig opts).delay * (resolveConfig opts).delayFactor * (a : Int) < 2 ^ 63) :
    1 ≤ a ∧ d = (resolveConfig opts).delay * (resolveConfig opts).delayFactor * (a : Int) := by
  have h := retryLoop_waitsAfter (resolveConfig opts) ctx operation
    (resolveConfig opts).maxAttempts 0 none [] rfl (by intro p hp; cases hp) (a, d) hwait
  obtain ⟨h1, h2⟩ := h
  refine ⟨h1, ?_⟩
  obtain ⟨b, rfl⟩ : ∃ b, a = b + 1 := ⟨a - 1, by omega⟩
  simp only [Nat.add_sub_cancel] at h2
  rw [h2]
  push_cast at hlo hhi ⊢
  exact waitDuration_eq _ b hlo hhi

/-- C6 on the third wait of the run of the test "Should attempts for 450
millisecond": 30ms after the third failure. -/
theorem linear_backoff_witness :
    1 ≤ 3 ∧ (30000000 : Int) =
      (resolveConfig ([Delay (10 * Millisecond)] : List (RetryOption TestErr))).delay *
        (resolveConfig ([Delay (10 * Millisecond)] : List (RetryOption TestErr))).delayFactor *
        ((3 : Nat) : Int) :=
  linear_backoff background alwaysFails [Delay (10 * Millisecond)] 3 30000000
    (by decide) (by decide) (by decide)

/-! ## C7: the wait after the last attempt -/

/-- C7, the code at the input of the test "Should attempts for 450 millisecond"
(an operation that always fails, `Delay(10ms)`, ten attempts): the timer elapses
ten times, the last time for 100ms after the tenth and last call, and the waits
add up to 550ms; with `MaxAttempts(1)` there is one wait, of 10ms. -/
theorem wait_after_last_attempt :
    (elapsedWaits (Retry background alwaysFails [Delay (10 * Millisecond)]).2).length = 10 ∧
    (elapsedWaits (Retry background alwaysFails [Delay (10 * Millisecond)]).2).sum
      = 550 * Millisecond ∧
    (Retry background alwaysFails [Delay (10 * Millisecond)]).2.getLast?
      = some (Event.wait (100 * Millisecond) false) ∧
    elapsedWaits (Retry background alwaysFails [Delay (10 * Millisecond), MaxAttempts 1]).2
      = [10 * Millisecond] := by
  decide

/-! ## C8: error provenance -/

theorem opResults_tail (cfg : config ε) (e : ε) (a : Nat) (ev : Event ε)
    (hev : opResults [ev] = []) :
    opResults ([Event.operation (some e)] ++ stopLog cfg e ++ hookLog cfg a ++ [ev])
      = [some e] := by
  simp only [opResults_append, opResults_stopLog, opResults_hookLog, hev]
  rfl

/-- In every run of the loop that starts with `err` being `nil` or the result of
the latest call of the operation, the value returned is `nil`, the result of the
latest call of the operation, or the non-nil result of the call of the hook that
ended the run. -/
theorem retryLoop_provenance (cfg : config ε) (ctx : Nat → Int → Bool)
    (operation : Nat → Option ε) (fuel a : Nat) (err : Option ε) (log : List (Event ε))
    (h0 : err = none ∨ (opResults log).getLast? = some err) :
    (retryLoop cfg ctx operation fuel a err log).1 = none ∨
    (opResults (retryLoop cfg ctx operation fuel a err log).2).getLast?
      = some (retryLoop cfg ctx operation fuel a err log).1 ∨
    ∃ n herr,
      (retryLoop cfg ctx operation fuel a err log).2.getLast?
        = some (Event.onRetry n (some herr)) ∧
      (retryLoop cfg ctx operation fuel a err log).1 = some herr := by
  induction fuel generalizing a err log with
  | zero => exact h0.elim Or.inl (fun h => Or.inr (Or.inl h))
  | succ fuel ih =>
    by_cases ha : a < cfg.maxAttempts
    · rcases retryLoop_succ_cases cfg ctx operation fuel a err log ha with
        h | ⟨e, h | ⟨herr, h⟩ | h | h⟩
      · rw [h]
        exact Or.inl rfl
      · rw [h]
        refine Or.inr (Or.inl ?_)
        simp
      · rw [h]
        exact Or.inr (Or.inr ⟨_, herr, getLast?_append_snoc _ _ _, rfl⟩)
      · rw [h]
        refine Or.inr (Or.inl ?_)
        rw [opResults_append, opResults_tail cfg e a (Event.wait (waitDuration cfg a) true) rfl]
        simp
      · rw [h]
        apply ih
        refine Or.inr ?_
        rw [iterationLog, opResults_append,
          opResults_tail cfg e a (Event.wait (waitDuration cfg a) false) rfl]
        simp
    · rw [retryLoop_exit cfg ctx operation _ a err log (Nat.le_of_not_lt ha)]
      exact h0.elim Or.inl (fun h => Or.inr (Or.inl h))

/-- C8. Whatever the options, the operation, the stop predicate, the hook and
the context do, the value `Retry` returns is `nil`, or the unmodified result of
the most recent call of the operation, or the unmodified non-nil error returned
by the call of the hook that ended the run. -/
theorem error_provenance (ctx : Nat → Int → Bool) (operation : Nat → Option ε)
    (opts : List (RetryOption ε)) :
    (Retry ctx operation opts).1 = none ∨
    (opResults (Retry ctx operation opts).2).getLast? = some (Retry ctx operation opts).1 ∨
    ∃ n herr,
      (Retry ctx operation opts).2.getLast? = some (Event.onRetry n (some herr)) ∧
      (Retry ctx operation opts).1 = some herr :=
  retryLoop_provenance (resolveConfig opts) ctx operation (resolveConfig opts).maxAttempts 0
    none [] (Or.inl rfl)

/-! ## C9: defaults -/

/-- C9. With no options `Retry` runs with `maxAttempts = 10`, `delay = 100ms`,
`delayFactor = 1`, no stop predicate and no hook; and for every list of options
built by the exported constructors, a field that no option of the list sets
keeps its default value. -/
theorem defaults (calls : List (OptionCall ε)) :
    ((resolveConfig ([] : List (RetryOption ε))).maxAttempts = 10 ∧
      (resolveConfig ([] : List (RetryOption ε))).delay = 100 * Millisecond ∧
      (resolveConfig ([] : List (RetryOption ε))).delayFactor = 1 ∧
      (resolveConfig ([] : List (RetryOption ε))).stopRetryIf = none ∧
      (resolveConfig ([] : List (RetryOption ε))).onRetry = none) ∧
    (∀ (ctx : Nat → Int → Bool) (operation : Nat → Option ε),
      Retry ctx operation [] = retryLoop (resolveConfig []) ctx operation 10 0 none []) ∧
    ((∀ c, c ∈ calls → c.field ≠ 0) →
      (resolveConfig (calls.map OptionCall.build)).maxAttempts = 10) ∧
    ((∀ c, c ∈ calls → c.field ≠ 1) →
      (resolveConfig (calls.map OptionCall.build)).delay = 100 * Millisecond) ∧
    ((∀ c, c ∈ calls → c.field ≠ 2) →
      (resolveConfig (calls.map OptionCall.build)).delayFactor = 1) ∧
    ((∀ c, c ∈ calls → c.field ≠ 3) →
      (resolveConfig (calls.map OptionCall.build)).stopRetryIf = none) ∧
    ((∀ c, c ∈ calls → c.field ≠ 4) →
      (resolveConfig (calls.map OptionCall.build)).onRetry = none) := by
  refine ⟨⟨rfl, Int.mul_comm Millisecond 100, rfl, rfl, rfl⟩, fun _ _ => rfl, ?_, ?_, ?_, ?_, ?_⟩
  · intro h
    exact applyOptions_maxAttempts calls defaultConfig h
  · intro h
    rw [resolveConfig, applyOptions_delay calls defaultConfig h]
    exact Int.mul_comm Millisecond 100
  · intro h
    exact applyOptions_delayFactor calls defaultConfig h
  · intro h
    exact applyOptions_stopRetryIf calls defaultConfig h
  · intro h
    exact applyOptions_onRetry calls defaultConfig h

/-- C9 on the options of the test "Should attempts 10 times as default":
`Delay(10ms)` and a hook leave `maxAttempts`, `delayFactor` and the stop
predicate at their defaults. -/
theorem defaults_witness :
    (resolveConfig ([OptionCall.delay (10 * Millisecond),
      OptionCall.onRetry (some hookNil)].map OptionCall.build)).maxAttempts = 10 ∧
    (resolveConfig ([OptionCall.delay (10 * Millisecond),
      OptionCall.onRetry (some hookNil)].map OptionCall.build)).delayFactor = 1 ∧
    (resolveConfig ([OptionCall.delay (10 * Millisecond),
      OptionCall.onRetry (some hookNil)].map OptionCall.build)).stopRetryIf = none :=
  ⟨(defaults [OptionCall.delay (10 * Millisecond), OptionCall.onRetry (some hookNil)]).2.2.1
      (by intro c hc; simp at hc; rcases hc with rfl | rfl <;> simp [OptionCall.field]),
    (defaults [OptionCall.delay (10 * Millisecond), OptionCall.onRetry (some hookNil)]).2.2.2.2.1
      (by intro c hc; simp at hc; rcases hc with rfl | rfl <;> simp [OptionCall.field]),
    (defaults [OptionCall.delay (10 * Millisecond), OptionCall.onRetry (some hookNil)]).2.2.2.2.2.1
      (by intro c hc; simp at hc; rcases hc with rfl | rfl <;> simp [OptionCall.field])⟩

/-! ## C10: ordered option application -/

/-- C10. The configuration `Retry` runs with is the left fold of the options, in
the order given, over the default configuration; and applying two options built
by the same constructor gives what the second alone gives. -/
theorem later_option_wins (opts : List (RetryOption ε)) (cfg : config ε) :
    resolveConfig opts = opts.foldl (fun c opt => opt c) defaultConfig ∧
    (∀ (ctx : Nat → Int → Bool) (operation : Nat → Option ε),
      Retry ctx operation opts =
        retryLoop (opts.foldl (fun c opt => opt c) defaultConfig) ctx operation
          (opts.foldl (fun c opt => opt c) defaultConfig).maxAttempts 0 none []) ∧
    (∀ n₁ n₂ : Nat, MaxAttempts n₂ (MaxAttempts n₁ cfg) = MaxAttempts n₂ cfg) ∧
    (∀ d₁ d₂ : Int, Delay d₂ (Delay d₁ cfg) = Delay d₂ cfg) ∧
    (∀ f₁ f₂ : Int, DelayFactor f₂ (DelayFactor f₁ cfg) = DelayFactor f₂ cfg) ∧
    (∀ p₁ p₂ : Option (StopRetryIfFunc ε),
      StopRetryIf p₂ (StopRetryIf p₁ cfg) = StopRetryIf p₂ cfg) ∧
    (∀ h₁ h₂ : Option (OnRetryFunc ε), OnRetry h₂ (OnRetry h₁ cfg) = OnRetry h₂ cfg) ∧
    (∀ c₁ c₂ : OptionCall ε, c₁.field = c₂.field →
      applyOptions [c₁.build, c₂.build] cfg = applyOptions [c₂.build] cfg) := by
  have hfold : ∀ (os : List (RetryOption ε)) (c : config ε),
      applyOptions os c = os.foldl (fun c opt => opt c) c := by
    intro os
    induction os with
    | nil => intro c; rfl
    | cons o os ih => intro c; exact ih (o c)
  have hres : resolveConfig opts = opts.foldl (fun c opt => opt c) defaultConfig :=
    hfold opts defaultConfig
  refine ⟨hres, ?_, fun _ _ => rfl, fun _ _ => rfl, fun _ _ => rfl, fun _ _ => rfl,
    fun _ _ => rfl, ?_⟩
  · intro ctx operation
    rw [← hres]
    rfl
  · intro c₁ c₂ hc
    cases c₁ <;> cases c₂ <;> first | rfl | exact absurd hc (by simp [OptionCall.field])

/-- C10 on two `MaxAttempts` options: `MaxAttempts(3)` then `MaxAttempts(5)` gives
what `MaxAttempts(5)` alone gives. -/
theorem later_option_wins_witness :
    applyOptions [(OptionCall.maxAttempts 3).build, (OptionCall.maxAttempts 5).build]
        (defaultConfig : config TestErr)
      = applyOptions [(OptionCall.maxAttempts 5).build] defaultConfig :=
  (later_option_wins [] defaultConfig).2.2.2.2.2.2.2
    (OptionCall.maxAttempts 3) (OptionCall.maxAttempts 5) rfl

/-! ## C11: zero attempts -/

/-- C11. With `maxAttempts = 0`, whatever the operation, the stop predicate, the
hook and the context would answer, `Retry` returns `nil` and its log is empty:
it calls neither the operation nor the stop predicate nor the hook, and does
not wait. -/
theorem zero_attempts (ctx : Nat → Int → Bool) (operation : Nat → Option ε)
    (opts : List (RetryOption ε)) (h0 : (resolveConfig opts).maxAttempts = 0) :
    (Retry ctx operation opts).1 = none ∧ (Retry ctx operation opts).2 = [] ∧
    opResults (Retry ctx operation opts).2 = [] ∧
    stopArgs (Retry ctx operation opts).2 = [] ∧
    hookArgs (Retry ctx operation opts).2 = [] ∧
    waits (Retry ctx operation opts).2 = [] := by
  have h : Retry ctx operation opts = (none, []) :=
    retryLoop_exit (resolveConfig opts) ctx operation _ 0 none [] (by omega)
  rw [h]
  exact ⟨rfl, rfl, rfl, rfl, rfl, rfl⟩

/-- C11 on `MaxAttempts(0)` with an operation that would fail, a stop predicate
that would stop and a hook that would veto. -/
theorem zero_attempts_witness :
    (Retry alreadyDone alwaysFails
      [MaxAttempts 0, StopRetryIf (some stopAlways), OnRetry (some hookAlwaysErr)]).1 = none ∧
    (Retry alreadyDone alwaysFails
      [MaxAttempts 0, StopRetryIf (some stopAlways), OnRetry (some hookAlwaysErr)]).2 = [] := by
  have h := zero_attempts alreadyDone alwaysFails
    [MaxAttempts 0, StopRetryIf (some stopAlways), OnRetry (some hookAlwaysErr)] rfl
  exact ⟨h.1, h.2.1⟩

/-! ## C18: option frame -/

/-- C18. Each option constructor assigns its own field and leaves the other four
fields of the configuration as they are; hence two constructor calls that assign
different fields give the same configuration in either order. -/
theorem option_frame (cfg : config ε) :
    (∀ n : Nat, (MaxAttempts n cfg).maxAttempts = n % 256 ∧
      (MaxAttempts n cfg).delay = cfg.delay ∧
      (MaxAttempts n cfg).delayFactor = cfg.delayFactor ∧
      (MaxAttempts n cfg).stopRetryIf = cfg.stopRetryIf ∧
      (MaxAttempts n cfg).onRetry = cfg.onRetry) ∧
    (∀ d : Int, (Delay d cfg).delay = wrap64 d ∧
      (Delay d cfg).maxAttempts = cfg.maxAttempts ∧
      (Delay d cfg).delayFactor = cfg.delayFactor ∧
      (Delay d cfg).stopRetryIf = cfg.stopRetryIf ∧
      (Delay d cfg).onRetry = cfg.onRetry) ∧
    (∀ f : Int, (DelayFactor f cfg).delayFactor = wrap64 f ∧
      (DelayFactor f cfg).maxAttempts = cfg.maxAttempts ∧
      (DelayFactor f cfg).delay = cfg.delay ∧
      (DelayFactor f cfg).stopRetryIf = cfg.stopRetryIf ∧
      (DelayFactor f cfg).onRetry = cfg.onRetry) ∧
    (∀ p : Option (StopRetryIfFunc ε), (StopRetryIf p cfg).stopRetryIf = p ∧
      (StopRetryIf p cfg).maxAttempts = cfg.maxAttempts ∧
      (StopRetryIf p cfg).delay = cfg.delay ∧
      (StopRetryIf p cfg).delayFactor = cfg.delayFactor ∧
      (StopRetryIf p cfg).onRetry = cfg.onRetry) ∧
    (∀ h : Option (OnRetryFunc ε), (OnRetry h cfg).onRetry = h ∧
      (OnRetry h cfg).maxAttempts = cfg.maxAttempts ∧
      (OnRetry h cfg).delay = cfg.delay ∧
      (OnRetry h cfg).delayFactor = cfg.delayFactor ∧
      (OnRetry h cfg).stopRetryIf = cfg.stopRetryIf) ∧
    (∀ c₁ c₂ : OptionCall ε, c₁.field ≠ c₂.field →
      applyOptions [c₁.build, c₂.build] cfg = applyOptions [c₂.build, c₁.build] cfg) := by
  refine ⟨fun _ => ⟨rfl, rfl, rfl, rfl, rfl⟩, fun _ => ⟨rfl, rfl, rfl, rfl, rfl⟩,
    fun _ => ⟨rfl, rfl, rfl, rfl, rfl⟩, fun _ => ⟨rfl, rfl, rfl, rfl, rfl⟩,
    fun _ => ⟨rfl, rfl, rfl, rfl, rfl⟩, ?_⟩
  intro c₁ c₂ hne
  cases c₁ <;> cases c₂ <;> first | rfl | exact absurd rfl hne

/-- C18 on `MaxAttempts(4)` and `Delay(10ms)`, applied in both orders. -/
theorem option_frame_witness :
    applyOptions [(OptionCall.maxAttempts 4).build, (OptionCall.delay (10 * Millisecond)).build]
        (defaultConfig : config TestErr)
      = applyOptions
          [(OptionCall.delay (10 * Millisecond)).build, (OptionCall.maxAttempts 4).build]
          defaultConfig :=
  (option_frame defaultConfig).2.2.2.2.2
    (OptionCall.maxAttempts 4) (OptionCall.delay (10 * Millisecond)) (by decide)

/-! ## C13: the trailing wait -/

theorem waitDuration_eq_wrap64 (cfg : config ε) (attempt : Nat) :
    waitDuration cfg attempt = wrap64 (cfg.delay * cfg.delayFactor * ((attempt : Int) + 1)) := by
  unfold waitDuration
  rw [wrap64_mul_wrap64]
  congr 1
  ring

theorem getLast?_firstLog_succ (cfg : config ε) (operation : Nat → Option ε) (k : Nat)
    (hfail : operation k ≠ none) :
    (firstLog cfg operation (k + 1)).getLast? = some (Event.wait (waitDuration cfg k) false) := by
  obtain ⟨e, he⟩ := Option.ne_none_iff_exists'.mp hfail
  rw [firstLog_succ cfg operation k e he, iterationLog]
  exact getLast?_append_snoc _ _ _

/-- C13. If every one of the `N = maxAttempts ≥ 1` calls of the operation fails,
the stop predicate (if any) answers `false`, the hook (if any) returns `nil` and
the first `N - 1` waits elapse, then after the `N`-th and last call a wait is
still issued: it is the last thing `Retry` does, its duration is the 64-bit
product `delay * delayFactor * N` (the exact product when that fits), the
operation has been called `N` times and `N` waits have been issued.  When the
context is not done during that wait either, all `N` timers elapse and `Retry`
returns the non-nil error of the `N`-th call. -/
theorem trailing_wait (ctx : Nat → Int → Bool) (operation : Nat → Option ε)
    (opts : List (RetryOption ε)) (N : Nat)
    (hN : (resolveConfig opts).maxAttempts = N) (hN1 : 1 ≤ N)
    (hfail : ∀ i, i < N → operation i ≠ none)
    (hstop : ∀ f, (resolveConfig opts).stopRetryIf = some f →
      ∀ i e, i < N → operation i = some e → f i e = false)
    (hhook : ∀ h, (resolveConfig opts).onRetry = some h → ∀ i n, i < N → h i n = none)
    (hctx : ∀ i d, i < N - 1 → ctx i d = false) :
    (Retry ctx operation opts).2.getLast? =
      some (Event.wait (waitDuration (resolveConfig opts) (N - 1))
        (ctx (N - 1) (waitDuration (resolveConfig opts) (N - 1)))) ∧
    waitDuration (resolveConfig opts) (N - 1) =
      wrap64 ((resolveConfig opts).delay * (resolveConfig opts).delayFactor * (N : Int)) ∧
    (-2 ^ 63 ≤ (resolveConfig opts).delay * (resolveConfig opts).delayFactor * (N : Int) →
      (resolveConfig opts).delay * (resolveConfig opts).delayFactor * (N : Int) < 2 ^ 63 →
      waitDuration (resolveConfig opts) (N - 1) =
        (resolveConfig opts).delay * (resolveConfig opts).delayFactor * (N : Int)) ∧
    (opResults (Retry ctx operation opts).2).length = N ∧
    (waits (Retry ctx operation opts).2).length = N ∧
    (ctx (N - 1) (waitDuration (resolveConfig opts) (N - 1)) = false →
      elapsedWaits (Retry ctx operation opts).2 =
        (List.range N).map (waitDuration (resolveConfig opts)) ∧
      (elapsedWaits (Retry ctx operation opts).2).length = N ∧
      (Retry ctx operation opts).1 = operation (N - 1) ∧
      (Retry ctx operation opts).1 ≠ none) := by
  obtain ⟨k, rfl⟩ : ∃ k, N = k + 1 := ⟨N - 1, by omega⟩
  simp only [Nat.add_sub_cancel] at hctx ⊢
  have hfail' : ∀ i, i < k → operation i ≠ none := fun i hi => hfail i (Nat.lt_succ_of_lt hi)
  have hc := continues_of (resolveConfig opts) ctx operation k hfail'
    (fun f hf i e hi he => hstop f hf i e (Nat.lt_succ_of_lt hi) he)
    (fun h hh i n hi => hhook h hh i n (Nat.lt_succ_of_lt hi)) hctx
  obtain ⟨e, he⟩ := Option.ne_none_iff_exists'.mp (hfail k (Nat.lt_succ_self k))
  have hdur := waitDuration_eq_wrap64 (resolveConfig opts) k
  have hdur' : waitDuration (resolveConfig opts) k =
      wrap64 ((resolveConfig opts).delay * (resolveConfig opts).delayFactor * ((k + 1 : Nat) : Int)) := by
    rw [hdur]
    push_cast
    rfl
  have hfit : -2 ^ 63 ≤ (resolveConfig opts).delay * (resolveConfig opts).delayFactor
        * ((k + 1 : Nat) : Int) →
      (resolveConfig opts).delay * (resolveConfig opts).delayFactor * ((k + 1 : Nat) : Int)
        < 2 ^ 63 →
      waitDuration (resolveConfig opts) k =
        (resolveConfig opts).delay * (resolveConfig opts).delayFactor * ((k + 1 : Nat) : Int) := by
    intro h1 h2
    rw [hdur']
    exact wrap64_eq_self _ h1 h2
  cases hlast : ctx k (waitDuration (resolveConfig opts) k) with
  | false =>
    have hall : ∀ i, i < (resolveConfig opts).maxAttempts →
        Continues (resolveConfig opts) ctx operation i := by
      intro i hi
      rw [hN] at hi
      rcases Nat.lt_succ_iff_lt_or_eq.mp hi with hlt | rfl
      · exact hc i hlt
      · exact ⟨e, he, fun f hf => hstop f hf i e (Nat.lt_succ_self i) he,
          fun h hh => hhook h hh i _ (Nat.lt_succ_self i), hlast⟩
    have hrun := Retry_exhaust_eq ctx operation opts hall
    rw [hN] at hrun
    rw [hrun]
    refine ⟨getLast?_firstLog_succ _ operation k (hfail k (Nat.lt_succ_self k)), hdur', hfit,
      ?_, ?_, fun _ => ⟨elapsedWaits_firstLog _ operation (k + 1) hfail, ?_, rfl, ?_⟩⟩
    · simp [opResults_firstLog _ operation (k + 1) hfail]
    · simp [waits_firstLog _ operation (k + 1) hfail]
    · simp [elapsedWaits_firstLog _ operation (k + 1) hfail]
    · exact hfail k (Nat.lt_succ_self k)
  | true =>
    rw [Retry_cancel_eq ctx operation opts k e (by omega) hc he
      (fun f hf => hstop f hf k e (Nat.lt_succ_self k) he)
      (fun h hh => hhook h hh k _ (Nat.lt_succ_self k)) hlast]
    refine ⟨getLast?_append_snoc _ _ _, hdur', hfit, ?_, ?_, fun h => absurd h (by simp)⟩
    · simp only [opResults_append, List.length_append, opResults_firstLog _ operation k hfail',
        opResults_stopLog, opResults_hookLog]
      simp
    · simp only [waits_append, List.length_append, waits_firstLog _ operation k hfail']
      unfold stopLog hookLog
      cases (resolveConfig opts).stopRetryIf <;> cases (resolveConfig opts).onRetry <;> simp

/-- C13 on the run of the test "Should attempts for 450 millisecond": ten waits,
the last one of 100ms after the tenth call. -/
theorem trailing_wait_witness :
    (Retry background alwaysFails [Delay (10 * Millisecond)]).2.getLast?
      = some (Event.wait (100 * Millisecond) false) ∧
    (opResults (Retry background alwaysFails [Delay (10 * Millisecond)]).2).length = 10 ∧
    (elapsedWaits (Retry background alwaysFails [Delay (10 * Millisecond)]).2).length = 10 := by
  have h := trailing_wait background alwaysFails [Delay (10 * Millisecond)] 10 rfl (by decide)
    (by intro i _; simp [alwaysFails])
    (by intro f hf; simp [resolveConfig, applyOptions, Delay, defaultConfig] at hf)
    (by intro h hh; simp [resolveConfig, applyOptions, Delay, defaultConfig] at hh)
    (by intro i d _; rfl)
  exact ⟨h.1, h.2.2.2.1, (h.2.2.2.2.2 rfl).2.1⟩

/-! ## C15: precedence of the ways an attempt ends -/

/-- C15. Let attempt `j` be reached (`1 ≤ j ≤ maxAttempts`, the attempts before
failed and the loop went on).  Nothing is assumed on what the stop predicate, the
hook and the context answer on attempt `j` beyond what each case names; so the
hook may be one that would return an error and the context may be done.
* Success comes first: if the `j`-th call returns `nil`, `Retry` returns `nil`
  and the call is the last thing it does; the stop predicate and the hook are
  not called for attempt `j` and no wait follows.
* The stop predicate comes before the hook and the context: if the `j`-th call
  fails with `e` and the stop predicate answers `true`, `Retry` returns `e`, the
  hook is not called for attempt `j` and no wait follows.
* The hook comes before the context: if the `j`-th call fails, the stop
  predicate (if any) answers `false` and the hook returns `herr`, `Retry`
  returns `herr` and no wait follows. -/
theorem termination_precedence (ctx : Nat → Int → Bool) (operation : Nat → Option ε)
    (opts : List (RetryOption ε)) (j : Nat)
    (hj1 : 1 ≤ j) (hjN : j ≤ (resolveConfig opts).maxAttempts)
    (hfail : ∀ i, i < j - 1 → operation i ≠ none)
    (hstop : ∀ f, (resolveConfig opts).stopRetryIf = some f →
      ∀ i e, i < j - 1 → operation i = some e → f i e = false)
    (hhook : ∀ h, (resolveConfig opts).onRetry = some h → ∀ i n, i < j - 1 → h i n = none)
    (hctx : ∀ i d, i < j - 1 → ctx i d = false) :
    (operation (j - 1) = none →
      (Retry ctx operation opts).1 = none ∧
      (Retry ctx operation opts).2.getLast? = some (Event.operation none) ∧
      (∀ f, (resolveConfig opts).stopRetryIf = some f →
        (stopArgs (Retry ctx operation opts).2).length = j - 1) ∧
      (∀ h, (resolveConfig opts).onRetry = some h →
        hookArgs (Retry ctx operation opts).2 = oneTo (j - 1)) ∧
      (waits (Retry ctx operation opts).2).length = j - 1) ∧
    (∀ e f, operation (j - 1) = some e → (resolveConfig opts).stopRetryIf = some f →
      f (j - 1) e = true →
      (Retry ctx operation opts).1 = some e ∧
      (Retry ctx operation opts).2.getLast? = some (Event.stopRetryIf e true) ∧
      (∀ h, (resolveConfig opts).onRetry = some h →
        hookArgs (Retry ctx operation opts).2 = oneTo (j - 1)) ∧
      (waits (Retry ctx operation opts).2).length = j - 1) ∧
    (∀ e h herr, operation (j - 1) = some e →
      (∀ f, (resolveConfig opts).stopRetryIf = some f → f (j - 1) e = false) →
      (resolveConfig opts).onRetry = some h → h (j - 1) (j : Int) = some herr →
      (Retry ctx operation opts).1 = some herr ∧
      (Retry ctx operation opts).2.getLast? = some (Event.onRetry (j : Int) (some herr)) ∧
      (waits (Retry ctx operation opts).2).length = j - 1) := by
  obtain ⟨k, rfl⟩ : ∃ k, j = k + 1 := ⟨j - 1, by omega⟩
  simp only [Nat.add_sub_cancel, Nat.cast_add, Nat.cast_one] at hfail hstop hhook hctx ⊢
  have hc := continues_of (resolveConfig opts) ctx operation k hfail hstop hhook hctx
  refine ⟨?_, ?_, ?_⟩
  · intro hop
    rw [Retry_success_eq ctx operation opts k (by omega) hc hop]
    refine ⟨rfl, by simp, ?_, ?_, ?_⟩
    · intro f hf
      simp [stopArgs_firstLog_length _ operation k f hf hfail]
    · intro h hh
      simp [hookArgs_firstLog_some _ operation k h hh hfail]
    · simp [waits_firstLog _ operation k hfail]
  · intro e f hop hf htrue
    rw [Retry_stop_eq ctx operation opts k e f (by omega) hc hop hf htrue]
    refine ⟨rfl, by simp, ?_, ?_⟩
    · intro h hh
      simp [hookArgs_firstLog_some _ operation k h hh hfail]
    · simp [waits_firstLog _ operation k hfail]
  · intro e h herr hop hfalse hh hveto
    rw [Retry_veto_eq ctx operation opts k e herr h (by omega) hc hop hfalse hh hveto]
    refine ⟨rfl, getLast?_append_snoc _ _ _, ?_⟩
    simp only [waits_append, List.length_append, waits_firstLog _ operation k hfail]
    unfold stopLog
    cases (resolveConfig opts).stopRetryIf <;> simp

/-- C15 on first attempts that fail under a context that is already done: with
a stop predicate that answers `true` and a hook that would return an error,
`Retry` returns the error of the operation and the hook is not called; with that
hook alone, `Retry` returns the error of the hook. -/
theorem termination_precedence_witness :
    ((Retry alreadyDone alwaysFails
        [StopRetryIf (some stopAlways), OnRetry (some hookAlwaysErr)]).1
        = some TestErr.errProcess ∧
      hookArgs (Retry alreadyDone alwaysFails
        [StopRetryIf (some stopAlways), OnRetry (some hookAlwaysErr)]).2 = []) ∧
    (Retry alreadyDone alwaysFails [OnRetry (some hookAlwaysErr)]).1
      = some TestErr.errAnother := by
  have h1 := (termination_precedence alreadyDone alwaysFails
    [StopRetryIf (some stopAlways), OnRetry (some hookAlwaysErr)] 1 (by decide) (by decide)
    (by intro i hi; omega) (by intro f _ i e hi; omega) (by intro h _ i n hi; omega)
    (by intro i d hi; omega)).2.1 TestErr.errProcess stopAlways rfl rfl rfl
  have h2 := (termination_precedence alreadyDone alwaysFails
    [OnRetry (some hookAlwaysErr)] 1 (by decide) (by decide)
    (by intro i hi; omega) (by intro f _ i e hi; omega) (by intro h _ i n hi; omega)
    (by intro i d hi; omega)).2.2 TestErr.errProcess hookAlwaysErr TestErr.errAnother rfl
    (by intro f hf; simp [resolveConfig, applyOptions, OnRetry, defaultConfig] at hf) rfl rfl
  exact ⟨⟨h1.1, h1.2.2.1 hookAlwaysErr rfl⟩, h2.1⟩

/-! ## C14: a context that is done before the call -/

/-- The log of a run of the loop extends the log the loop starts with. -/
theorem retryLoop_log_extends (cfg : config ε) (ctx : Nat → Int → Bool)
    (operation : Nat → Option ε) (fuel a : Nat) (err : Option ε) (log : List (Event ε)) :
    ∃ rest, (retryLoop cfg ctx operation fuel a err log).2 = log ++ rest := by
  induction fuel generalizing a err log with
  | zero => exact ⟨[], (List.append_nil log).symm⟩
  | succ fuel ih =>
    by_cases hlt : a < cfg.maxAttempts
    · rcases retryLoop_succ_cases cfg ctx operation fuel a err log hlt with
        h | ⟨e, h | ⟨herr, h⟩ | h | h⟩
      · exact ⟨_, by rw [h]⟩
      · exact ⟨_, by rw [h]⟩
      · exact ⟨_, by rw [h]⟩
      · exact ⟨_, by rw [h]⟩
      · obtain ⟨rest, hrest⟩ := ih (a + 1) (some e) (log ++ iterationLog cfg a e)
        exact ⟨iterationLog cfg a e ++ rest, by rw [h, hrest, List.append_assoc]⟩
    · exact ⟨[], by
        rw [retryLoop_exit cfg ctx operation _ a err log (Nat.le_of_not_lt hlt)]
        exact (List.append_nil log).symm⟩

/-- C14 as stated fails.  Under a context that is already done and with a first
call that fails: when the stop predicate answers `true`, a configured hook is
not consulted and `Retry` returns without reaching a wait; when the hook returns
an error, `Retry` returns that error and not the error of the attempt; and with
`Delay(0)` both channels can proceed at every `select`, Go may take the timer
branch each time, and the operation is then called ten times, not once. -/
theorem hook_skipped_when_done :
    (hookArgs (Retry alreadyDone alwaysFails
      [StopRetryIf (some stopAlways), OnRetry (some hookNil)]).2 = [] ∧
      waits (Retry alreadyDone alwaysFails
        [StopRetryIf (some stopAlways), OnRetry (some hookNil)]).2 = []) ∧
    (alwaysFails 0 = some TestErr.errProcess ∧
      (Retry alreadyDone alwaysFails [OnRetry (some hookAlwaysErr)]).1
        = some TestErr.errAnother ∧
      waits (Retry alreadyDone alwaysFails [OnRetry (some hookAlwaysErr)]).2 = []) ∧
    ((∀ i d, (cancelledBefore i d).doneReady = true) ∧
      (∀ i d, selectMay (cancelledBefore i d) (timerWhenDue i d) = true) ∧
      (opResults (Retry timerWhenDue alwaysFails [Delay 0]).2).length = 10 ∧
      (elapsedWaits (Retry timerWhenDue alwaysFails [Delay 0]).2).length = 10) := by
  refine ⟨by decide, by decide, fun _ _ => rfl, ?_, by decide, by decide⟩
  intro i d
  by_cases hd : d ≤ 0
  · simp [selectMay, cancelledBefore, hd]
  · simp [selectMay, cancelledBefore, timerWhenDue, hd, Int.not_le.mp hd]

/-- C14, amended.  Let the context be done before `Retry` is called
(`ctx.Done()` can proceed at every `select`, and every `select` takes a branch
Go allows), with `maxAttempts ≥ 1`.  The operation is still called.  If that
first call returns `nil`, `Retry` returns `nil` after that one call.  If it
fails with `e`, the stop predicate (if any) is called first on `e`, and when it
answers `true` there is no second call of the operation; unless it answers
`true`, the hook (if any) is called first on attempt 1, and when it returns an
error there is no second call; and unless the hook returns an error, if the
timer of the first wait is not due when the `select` is entered, `Retry` returns
`e` at that wait, which is the last thing it does, after one call of the
operation, one of the stop predicate and one of the hook. -/
theorem cancellation_only_at_wait (ctx : Nat → Int → Bool) (operation : Nat → Option ε)
    (opts : List (RetryOption ε)) (world : Nat → Int → Channels)
    (hsel : ∀ i d, selectMay (world i d) (ctx i d) = true)
    (hdone : ∀ i d, (world i d).doneReady = true)
    (h1 : 1 ≤ (resolveConfig opts).maxAttempts) :
    (opResults (Retry ctx operation opts).2).head? = some (operation 0) ∧
    (operation 0 = none →
      (Retry ctx operation opts).1 = none ∧
      (opResults (Retry ctx operation opts).2).length = 1) ∧
    (∀ e, operation 0 = some e →
      (∀ f, (resolveConfig opts).stopRetryIf = some f →
        (stopArgs (Retry ctx operation opts).2).head? = some e ∧
        (f 0 e = true → (opResults (Retry ctx operation opts).2).length = 1)) ∧
      ((∀ f, (resolveConfig opts).stopRetryIf = some f → f 0 e = false) →
        (∀ h, (resolveConfig opts).onRetry = some h →
          (hookArgs (Retry ctx operation opts).2).head? = some 1 ∧
          (h 0 1 ≠ none → (opResults (Retry ctx operation opts).2).length = 1)) ∧
        ((∀ h, (resolveConfig opts).onRetry = some h → h 0 1 = none) →
          (world 0 (waitDuration (resolveConfig opts) 0)).timerReady = false →
          (Retry ctx operation opts).1 = some e ∧
          (Retry ctx operation opts).2.getLast?
            = some (Event.wait (waitDuration (resolveConfig opts) 0) true) ∧
          (waits (Retry ctx operation opts).2).length = 1 ∧
          (opResults (Retry ctx operation opts).2).length = 1 ∧
          (∀ f, (resolveConfig opts).stopRetryIf = some f →
            stopArgs (Retry ctx operation opts).2 = [e]) ∧
          (∀ h, (resolveConfig opts).onRetry = some h →
            hookArgs (Retry ctx operation opts).2 = [1])))) := by
  have hc : ∀ i, i < 0 → Continues (resolveConfig opts) ctx operation i :=
    fun i hi => absurd hi (Nat.not_lt_zero i)
  have hpos : 0 < (resolveConfig opts).maxAttempts := h1
  cases hop : operation 0 with
  | none =>
    rw [Retry_success_eq ctx operation opts 0 hpos hc hop]
    exact ⟨rfl, fun _ => ⟨rfl, rfl⟩, fun e he => absurd he (by simp)⟩
  | some e =>
    by_cases hst : ∃ f, (resolveConfig opts).stopRetryIf = some f ∧ f 0 e = true
    · obtain ⟨f, hf, htrue⟩ := hst
      rw [Retry_stop_eq ctx operation opts 0 e f hpos hc hop hf htrue]
      refine ⟨rfl, fun h => absurd h (by simp), ?_⟩
      intro e' he'
      obtain rfl : e = e' := Option.some.inj he'
      refine ⟨fun _ _ => ⟨rfl, fun _ => rfl⟩, fun hfalse => ?_⟩
      rw [hfalse f hf] at htrue
      exact absurd htrue (by simp)
    · have hfalse : ∀ f, (resolveConfig opts).stopRetryIf = some f → f 0 e = false := by
        intro f hf
        cases hfe : f 0 e with
        | false => rfl
        | true => exact absurd ⟨f, hf, hfe⟩ hst
      have hstoptrue : ∀ f, (resolveConfig opts).stopRetryIf = some f → f 0 e = true →
          ∀ P : Prop, P := by
        intro f hf ht
        rw [hfalse f hf] at ht
        exact absurd ht (by simp)
      by_cases hv : ∃ h herr, (resolveConfig opts).onRetry = some h ∧ h 0 1 = some herr
      · obtain ⟨h, herr, hh, hveto⟩ := hv
        rw [Retry_veto_eq ctx operation opts 0 e herr h hpos hc hop hfalse hh
          (by simpa using hveto)]
        have hops : (opResults (firstLog (resolveConfig opts) operation 0 ++
            ([Event.operation (some e)] ++ stopLog (resolveConfig opts) e ++
              [Event.onRetry (((0 : Nat) : Int) + 1) (some herr)]))).length = 1 := by
          unfold stopLog
          cases (resolveConfig opts).stopRetryIf <;> rfl
        refine ⟨rfl, fun h => absurd h (by simp), ?_⟩
        intro e' he'
        obtain rfl : e = e' := Option.some.inj he'
        refine ⟨?_, fun _ => ⟨?_, fun hnil => ?_⟩⟩
        · intro f hf
          exact ⟨by simp [firstLog, stopLog, hf], fun ht => hstoptrue f hf ht _⟩
        · intro h' _
          refine ⟨?_, fun _ => hops⟩
          unfold stopLog
          cases (resolveConfig opts).stopRetryIf <;> simp [firstLog]
        · rw [hnil h hh] at hveto
          exact absurd hveto (by simp)
      · have hnil : ∀ h, (resolveConfig opts).onRetry = some h →
            h 0 (((0 : Nat) : Int) + 1) = none := by
          intro h hh
          cases hr : h 0 (((0 : Nat) : Int) + 1) with
          | none => rfl
          | some herr => exact absurd ⟨h, herr, hh, by simpa using hr⟩ hv
        have hnil' : ∀ h, (resolveConfig opts).onRetry = some h → h 0 1 ≠ none →
            ∀ P : Prop, P := by
          intro h hh hne
          exact absurd (by simpa using hnil h hh) hne
        cases hb : ctx 0 (waitDuration (resolveConfig opts) 0) with
        | true =>
          rw [Retry_cancel_eq ctx operation opts 0 e hpos hc hop hfalse hnil hb]
          have hops : (opResults (firstLog (resolveConfig opts) operation 0 ++
              ([Event.operation (some e)] ++ stopLog (resolveConfig opts) e ++
                hookLog (resolveConfig opts) 0 ++
                [Event.wait (waitDuration (resolveConfig opts) 0) true]))).length = 1 := by
            unfold stopLog hookLog
            cases (resolveConfig opts).stopRetryIf <;> cases (resolveConfig opts).onRetry <;> rfl
          have hstopargs : ∀ f, (resolveConfig opts).stopRetryIf = some f →
              stopArgs (firstLog (resolveConfig opts) operation 0 ++
                ([Event.operation (some e)] ++ stopLog (resolveConfig opts) e ++
                  hookLog (resolveConfig opts) 0 ++
                  [Event.wait (waitDuration (resolveConfig opts) 0) true])) = [e] := by
            intro f hf
            unfold hookLog
            cases (resolveConfig opts).onRetry <;> simp [firstLog, stopLog, hf]
          have hhookargs : ∀ h, (resolveConfig opts).onRetry = some h →
              hookArgs (firstLog (resolveConfig opts) operation 0 ++
                ([Event.operation (some e)] ++ stopLog (resolveConfig opts) e ++
                  hookLog (resolveConfig opts) 0 ++
                  [Event.wait (waitDuration (resolveConfig opts) 0) true])) = [1] := by
            intro h hh
            unfold stopLog
            cases (resolveConfig opts).stopRetryIf <;> simp [firstLog, hookLog, hh]
          refine ⟨rfl, fun h => absurd h (by simp), ?_⟩
          intro e' he'
          obtain rfl : e = e' := Option.some.inj he'
          refine ⟨?_, fun _ => ⟨?_, fun _ _ =>
            ⟨rfl, getLast?_append_snoc _ _ _, ?_, hops, hstopargs, hhookargs⟩⟩⟩
          · intro f hf
            exact ⟨by rw [hstopargs f hf]; rfl, fun ht => hstoptrue f hf ht _⟩
          · intro h hh
            exact ⟨by rw [hhookargs h hh]; rfl, fun hne => hnil' h hh hne _⟩
          · unfold stopLog hookLog
            cases (resolveConfig opts).stopRetryIf <;> cases (resolveConfig opts).onRetry <;>
              simp [firstLog]
        | false =>
          have hdue : (world 0 (waitDuration (resolveConfig opts) 0)).timerReady = true := by
            have h2 := hsel 0 (waitDuration (resolveConfig opts) 0)
            have h3 := hdone 0 (waitDuration (resolveConfig opts) 0)
            rw [hb] at h2
            cases htr : (world 0 (waitDuration (resolveConfig opts) 0)).timerReady with
            | true => rfl
            | false => simp [selectMay, h3, htr] at h2
          obtain ⟨m, hm⟩ : ∃ m, (resolveConfig opts).maxAttempts = m + 1 :=
            ⟨(resolveConfig opts).maxAttempts - 1, by omega⟩
          have hstep := retryLoop_continue (resolveConfig opts) ctx operation m 0 none [] e
            ⟨rfl, fun _ _ => rfl, fun _ _ => rfl, rfl⟩ hpos hop hfalse hnil hb
          obtain ⟨rest, hrest⟩ := retryLoop_log_extends (resolveConfig opts) ctx operation m
            (0 + 1) (some e) ([] ++ iterationLog (resolveConfig opts) 0 e)
          have hrun : (Retry ctx operation opts).2 =
              iterationLog (resolveConfig opts) 0 e ++ rest := by
            show (retryLoop (resolveConfig opts) ctx operation
              (resolveConfig opts).maxAttempts 0 none []).2 = _
            rw [hm, hstep, hrest, List.nil_append]
          rw [hrun]
          refine ⟨by simp [opResults_iterationLog], fun h => absurd h (by simp), ?_⟩
          intro e' he'
          obtain rfl : e = e' := Option.some.inj he'
          refine ⟨?_, fun _ => ⟨?_, fun _ hnotdue => ?_⟩⟩
          · intro f hf
            exact ⟨by simp [stopArgs_iterationLog_some _ 0 e f hf],
              fun ht => hstoptrue f hf ht _⟩
          · intro h hh
            exact ⟨by simp [hookArgs_iterationLog_some _ 0 e h hh],
              fun hne => hnil' h hh hne _⟩
          · rw [hdue] at hnotdue
            exact absurd hnotdue (by simp)

/-- C14, amended, on a first attempt that fails under a context cancelled before
the call, with a hook that returns `nil` and the default delay, whose timer
(100ms) is not due when the `select` is entered: one call, the hook is consulted
on attempt 1, and `Retry` returns the error of the attempt. -/
theorem cancellation_only_at_wait_witness :
    (opResults (Retry alreadyDone alwaysFails [OnRetry (some hookNil)]).2).length = 1 ∧
    hookArgs (Retry alreadyDone alwaysFails [OnRetry (some hookNil)]).2 = [1] ∧
    (Retry alreadyDone alwaysFails [OnRetry (some hookNil)]).1 = some TestErr.errProcess := by
  have h := cancellation_only_at_wait alreadyDone alwaysFails [OnRetry (some hookNil)]
    cancelledBefore
    (by
      intro i d
      by_cases hd : d ≤ 0 <;> simp [selectMay, cancelledBefore, alreadyDone, hd])
    (by intro i d; rfl) (by decide)
  have h2 := ((h.2.2 TestErr.errProcess rfl).2
    (by intro f hf; simp [resolveConfig, applyOptions, OnRetry, defaultConfig] at hf)).2
    (by intro h' hh; have hh2 : some hookNil = some h' := hh; cases hh2; rfl)
    (by decide)
  exact ⟨h2.2.2.2.1, h2.2.2.2.2.2 hookNil rfl, h2.1⟩

/-! ## C12: the sign of the delay parameters -/

/-- C12 as stated fails: `Delay(-1)` and `DelayFactor(-1)` are stored unchanged,
the wait after the first failure then lasts -1ns; and with the non-negative
`Delay(2^62)` the second wait, `2 * 2^62`, wraps around to `-2^63`. -/
theorem negative_delay_accepted :
    (resolveConfig ([Delay (-1)] : List (RetryOption TestErr))).delay = -1 ∧
    (resolveConfig ([DelayFactor (-1)] : List (RetryOption TestErr))).delayFactor = -1 ∧
    waits (Retry background alwaysFails [Delay (-1), MaxAttempts 1]).2 = [-1] ∧
    waits (Retry background alwaysFails [Delay (2 ^ 62), MaxAttempts 2]).2
      = [2 ^ 62, -2 ^ 63] := by
  decide

theorem applyOptions_nonneg (calls : List (OptionCall ε)) (cfg : config ε)
    (hnn : ∀ c, c ∈ calls → c.nonNegative) (hd : 0 ≤ cfg.delay) (hf : 0 ≤ cfg.delayFactor) :
    0 ≤ (applyOptions (calls.map OptionCall.build) cfg).delay ∧
    0 ≤ (applyOptions (calls.map OptionCall.build) cfg).delayFactor := by
  induction calls generalizing cfg with
  | nil => exact ⟨hd, hf⟩
  | cons c cs ih =>
    simp only [List.map_cons, applyOptions]
    have hc := hnn c (List.mem_cons_self _ _)
    apply ih _ (fun c' hc' => hnn c' (List.mem_cons_of_mem _ hc'))
    · cases c with
      | delay d =>
        show 0 ≤ wrap64 d
        rw [wrap64_eq_self d (by have := hc.1; omega) hc.2]
        exact hc.1
      | _ => exact hd
    · cases c with
      | delayFactor f =>
        show 0 ≤ wrap64 f
        rw [wrap64_eq_self f (by have := hc.1; omega) hc.2]
        exact hc.1
      | _ => exact hf

/-- C12, amended.  For every list of options in which every `Delay` and
`DelayFactor` argument is non-negative, the resolved configuration has
`delay ≥ 0` and `delayFactor ≥ 0`, and the wait computed for an attempt is
non-negative whenever the product `delay * delayFactor * attempt` fits in a
signed 64-bit integer. -/
theorem nonnegative_delay (calls : List (OptionCall ε))
    (hnn : ∀ c, c ∈ calls → c.nonNegative) :
    0 ≤ (resolveConfig (calls.map OptionCall.build)).delay ∧
    0 ≤ (resolveConfig (calls.map OptionCall.build)).delayFactor ∧
    ∀ attempt : Nat,
      (resolveConfig (calls.map OptionCall.build)).delay *
        (resolveConfig (calls.map OptionCall.build)).delayFactor * ((attempt : Int) + 1)
          < 2 ^ 63 →
      0 ≤ waitDuration (resolveConfig (calls.map OptionCall.build)) attempt := by
  have h := applyOptions_nonneg calls defaultConfig hnn
    (show (0 : Int) ≤ DefaultDelay by decide) (show (0 : Int) ≤ DefaultDelayFactor by decide)
  refine ⟨h.1, h.2, ?_⟩
  intro attempt hfit
  have hprod : 0 ≤ (resolveConfig (calls.map OptionCall.build)).delay *
      (resolveConfig (calls.map OptionCall.build)).delayFactor * ((attempt : Int) + 1) :=
    Int.mul_nonneg (Int.mul_nonneg h.1 h.2) (by omega)
  rw [waitDuration_eq _ attempt (by omega) hfit]
  exact hprod

/-- C12, amended, on `Delay(10ms)` and `DelayFactor(2)`: the third wait is
non-negative. -/
theorem nonnegative_delay_witness :
    0 ≤ waitDuration (resolveConfig ([OptionCall.delay (10 * Millisecond),
      OptionCall.delayFactor 2].map OptionCall.build) : config TestErr) 2 :=
  (nonnegative_delay [OptionCall.delay (10 * Millisecond), OptionCall.delayFactor 2]
    (by
      intro c hc
      simp only [List.mem_cons, List.mem_singleton, List.not_mem_nil, or_false] at hc
      rcases hc with rfl | rfl <;> simp [OptionCall.nonNegative, Millisecond])).2.2 2
    (by decide)

/-! ## C16: bounded attempts -/

theorem failedCalls_append (l₁ l₂ : List (Event ε)) :
    failedCalls (l₁ ++ l₂) = failedCalls l₁ + failedCalls l₂ := by
  simp [failedCalls]

theorem applyOptions_maxAttempts_le (calls : List (OptionCall ε)) (cfg : config ε)
    (h : cfg.maxAttempts ≤ 255) :
    (applyOptions (calls.map OptionCall.build) cfg).maxAttempts ≤ 255 := by
  induction calls generalizing cfg with
  | nil => exact h
  | cons c cs ih =>
    simp only [List.map_cons, applyOptions]
    apply ih
    cases c with
    | maxAttempts n =>
      show n % 256 ≤ 255
      omega
    | _ => exact h

/-- The counts of one iteration that fails with `e`: one failed call, at most one
call of the stop predicate, at most one call of the hook and at most one wait. -/
theorem counts_tail (cfg : config ε) (e : ε) (rest : List (Event ε))
    (hrest : opResults rest = [])
    (hs : (stopArgs rest).length + (stopArgs (stopLog cfg e)).length ≤ 1)
    (hh : (hookArgs rest).length ≤ 1) (hw : (waits rest).length ≤ 1) :
    (opResults ([Event.operation (some e)] ++ stopLog cfg e ++ rest)).length = 1 ∧
    failedCalls ([Event.operation (some e)] ++ stopLog cfg e ++ rest) = 1 ∧
    (stopArgs ([Event.operation (some e)] ++ stopLog cfg e ++ rest)).length ≤ 1 ∧
    (hookArgs ([Event.operation (some e)] ++ stopLog cfg e ++ rest)).length ≤ 1 ∧
    (waits ([Event.operation (some e)] ++ stopLog cfg e ++ rest)).length ≤ 1 := by
  have h1 : hookArgs (stopLog cfg e) = [] := by
    unfold stopLog
    cases cfg.stopRetryIf <;> rfl
  have h2 : waits (stopLog cfg e) = [] := by
    unfold stopLog
    cases cfg.stopRetryIf <;> rfl
  simp only [failedCalls, opResults_append, stopArgs_append, hookArgs_append, waits_append,
    opResults_stopLog, hrest, h1, h2]
  refine ⟨rfl, rfl, ?_, ?_, ?_⟩
  · simp only [List.length_append]
    have : (stopArgs [Event.operation (some e)]).length = 0 := rfl
    omega
  · simpa using hh
  · simpa using hw

/-- In every run of the loop that starts in step with its counter, the operation
is called at most `maxAttempts` times, and the stop predicate, the hook and the
waits each occur at most once per failed call. -/
theorem retryLoop_bounded (cfg : config ε) (ctx : Nat → Int → Bool)
    (operation : Nat → Option ε) (fuel a : Nat) (err : Option ε) (log : List (Event ε))
    (ha : a ≤ cfg.maxAttempts) (hop : (opResults log).length = a)
    (hf : failedCalls log = a) (hs : (stopArgs log).length ≤ a)
    (hh : (hookArgs log).length ≤ a) (hw : (waits log).length ≤ a) :
    (opResults (retryLoop cfg ctx operation fuel a err log).2).length ≤ cfg.maxAttempts ∧
    (stopArgs (retryLoop cfg ctx operation fuel a err log).2).length
      ≤ failedCalls (retryLoop cfg ctx operation fuel a err log).2 ∧
    (hookArgs (retryLoop cfg ctx operation fuel a err log).2).length
      ≤ failedCalls (retryLoop cfg ctx operation fuel a err log).2 ∧
    (waits (retryLoop cfg ctx operation fuel a err log).2).length
      ≤ failedCalls (retryLoop cfg ctx operation fuel a err log).2 := by
  induction fuel generalizing a err log with
  | zero =>
    exact ⟨le_of_eq_of_le hop ha, le_of_le_of_eq hs hf.symm, le_of_le_of_eq hh hf.symm,
      le_of_le_of_eq hw hf.symm⟩
  | succ fuel ih =>
    by_cases hlt : a < cfg.maxAttempts
    · rcases retryLoop_succ_cases cfg ctx operation fuel a err log hlt with
        h | ⟨e, h | ⟨herr, h⟩ | h | h⟩
      · rw [h]
        simp only [opResults_append, stopArgs_append, hookArgs_append, waits_append,
          failedCalls_append, List.length_append, hop, hf]
        refine ⟨?_, ?_, ?_, ?_⟩
        · show a + 1 ≤ cfg.maxAttempts
          exact hlt
        · show (stopArgs log).length + 0 ≤ a + 0
          omega
        · show (hookArgs log).length + 0 ≤ a + 0
          omega
        · show (waits log).length + 0 ≤ a + 0
          omega
      · rw [h]
        simp only [opResults_append, stopArgs_append, hookArgs_append, waits_append,
          failedCalls_append, List.length_append, hop, hf]
        refine ⟨?_, ?_, ?_, ?_⟩
        · show a + 1 ≤ cfg.maxAttempts
          exact hlt
        · show (stopArgs log).length + 1 ≤ a + 1
          omega
        · show (hookArgs log).length + 0 ≤ a + 1
          omega
        · show (waits log).length + 0 ≤ a + 1
          omega
      · rw [h]
        have hc := counts_tail cfg e [Event.onRetry ((a : Int) + 1) (some herr)] rfl
          (by unfold stopLog; cases cfg.stopRetryIf <;> simp) (by simp) (by simp)
        simp only [opResults_append, stopArgs_append, hookArgs_append, waits_append,
          failedCalls_append, List.length_append, hop, hf] at hc ⊢
        omega
      · rw [h]
        have hc := counts_tail cfg e
          (hookLog cfg a ++ [Event.wait (waitDuration cfg a) true])
          (by simp [opResults_hookLog])
          (by unfold stopLog hookLog; cases cfg.stopRetryIf <;> cases cfg.onRetry <;> simp)
          (by unfold hookLog; cases cfg.onRetry <;> simp)
          (by unfold hookLog; cases cfg.onRetry <;> simp)
        simp only [← List.append_assoc] at hc
        simp only [opResults_append, stopArgs_append, hookArgs_append, waits_append,
          failedCalls_append, List.length_append, hop, hf] at hc ⊢
        omega
      · rw [h]
        have hc := counts_tail cfg e
          (hookLog cfg a ++ [Event.wait (waitDuration cfg a) false])
          (by simp [opResults_hookLog])
          (by unfold stopLog hookLog; cases cfg.stopRetryIf <;> cases cfg.onRetry <;> simp)
          (by unfold hookLog; cases cfg.onRetry <;> simp)
          (by unfold hookLog; cases cfg.onRetry <;> simp)
        simp only [← List.append_assoc] at hc
        apply ih (a + 1) (some e) _ hlt
        · simp only [iterationLog, opResults_append, List.length_append, hop] at hc ⊢
          omega
        · simp only [iterationLog, failedCalls_append, hf] at hc ⊢
          omega
        · simp only [iterationLog, stopArgs_append, List.length_append] at hc ⊢
          omega
        · simp only [iterationLog, hookArgs_append, List.length_append] at hc ⊢
          omega
        · simp only [iterationLog, waits_append, List.length_append] at hc ⊢
          omega
    · rw [retryLoop_exit cfg ctx operation _ a err log (Nat.le_of_not_lt hlt)]
      exact ⟨le_of_eq_of_le hop ha, le_of_le_of_eq hs hf.symm, le_of_le_of_eq hh hf.symm,
        le_of_le_of_eq hw hf.symm⟩

/-- C16. Whatever the options, the operation, the stop predicate, the hook and
the context do, the run of `Retry` is the same for every bound on the number of
iterations from `maxAttempts` on (the loop ends by itself), the operation is
called at most `maxAttempts` times, and the stop predicate and the hook are
called, and a wait is issued, at most once per failed call of the operation.
For options built by the exported constructors `maxAttempts ≤ 255`, hence at
most 255 calls. -/
theorem bounded_attempts (ctx : Nat → Int → Bool) (operation : Nat → Option ε)
    (opts : List (RetryOption ε)) :
    (∀ extra : Nat,
      retryLoop (resolveConfig opts) ctx operation ((resolveConfig opts).maxAttempts + extra)
        0 none [] = Retry ctx operation opts) ∧
    (opResults (Retry ctx operation opts).2).length ≤ (resolveConfig opts).maxAttempts ∧
    (stopArgs (Retry ctx operation opts).2).length ≤ failedCalls (Retry ctx operation opts).2 ∧
    (hookArgs (Retry ctx operation opts).2).length ≤ failedCalls (Retry ctx operation opts).2 ∧
    (waits (Retry ctx operation opts).2).length ≤ failedCalls (Retry ctx operation opts).2 ∧
    (∀ calls : List (OptionCall ε), opts = calls.map OptionCall.build →
      (resolveConfig opts).maxAttempts ≤ 255 ∧
      (opResults (Retry ctx operation opts).2).length ≤ 255) := by
  have h := retryLoop_bounded (resolveConfig opts) ctx operation
    (resolveConfig opts).maxAttempts 0 none [] (Nat.zero_le _) rfl rfl (Nat.le_refl _)
    (Nat.le_refl _) (Nat.le_refl _)
  refine ⟨Retry_fuel ctx operation opts, h.1, h.2.1, h.2.2.1, h.2.2.2, ?_⟩
  intro calls hcalls
  have hmax : (resolveConfig opts).maxAttempts ≤ 255 := by
    rw [hcalls]
    exact applyOptions_maxAttempts_le calls defaultConfig
      (show DefaultAttempts ≤ 255 by decide)
  exact ⟨hmax, Nat.le_trans h.1 hmax⟩

/-- C16 on `MaxAttempts(255)` with an operation that always fails: at most 255
calls. -/
theorem bounded_attempts_witness :
    (resolveConfig ([MaxAttempts 255] : List (RetryOption TestErr))).maxAttempts ≤ 255 ∧
    (opResults (Retry background alwaysFails [MaxAttempts 255]).2).length ≤ 255 :=
  (bounded_attempts background alwaysFails [MaxAttempts 255]).2.2.2.2.2
    [OptionCall.maxAttempts 255] rfl

/-! ## C17: a nil result means success -/

/-- In every run of the loop with enough fuel that either makes one more call or
starts after a failed call, the result is `nil` exactly when the last call of
the operation returned `nil`, and that call is then the last event. -/
theorem retryLoop_nil_iff (cfg : config ε) (ctx : Nat → Int → Bool)
    (operation : Nat → Option ε) (fuel a : Nat) (err : Option ε) (log : List (Event ε))
    (hfuel : cfg.maxAttempts ≤ a + fuel)
    (hinv : a < cfg.maxAttempts ∨
      (∃ e, err = some e ∧ (opResults log).getLast? = some (some e)) ∧
        log.getLast? ≠ some (Event.operation none)) :
    ((retryLoop cfg ctx operation fuel a err log).1 = none ∧
      (opResults (retryLoop cfg ctx operation fuel a err log).2).getLast? = some none ∧
      (retryLoop cfg ctx operation fuel a err log).2.getLast? = some (Event.operation none)) ∨
    ((retryLoop cfg ctx operation fuel a err log).1 ≠ none ∧
      (∃ e, (opResults (retryLoop cfg ctx operation fuel a err log).2).getLast?
        = some (some e)) ∧
      (retryLoop cfg ctx operation fuel a err log).2.getLast? ≠ some (Event.operation none)) := by
  induction fuel generalizing a err log with
  | zero =>
    rcases hinv with hlt | ⟨⟨e, he, hlast⟩, hev⟩
    · omega
    · exact Or.inr ⟨by rw [he]; exact Option.some_ne_none e, ⟨e, hlast⟩, hev⟩
  | succ fuel ih =>
    by_cases hlt : a < cfg.maxAttempts
    · rcases retryLoop_succ_cases cfg ctx operation fuel a err log hlt with
        h | ⟨e, h | ⟨herr, h⟩ | h | h⟩
      · rw [h]
        exact Or.inl ⟨rfl, by simp, by simp⟩
      · rw [h]
        exact Or.inr ⟨Option.some_ne_none e, ⟨e, by simp⟩, by simp⟩
      · rw [h]
        refine Or.inr ⟨Option.some_ne_none herr, ⟨e, ?_⟩, ?_⟩
        · simp [opResults_stopLog]
        · rw [getLast?_append_snoc]
          simp
      · rw [h]
        refine Or.inr ⟨Option.some_ne_none e, ⟨e, ?_⟩, ?_⟩
        · rw [opResults_append,
            opResults_tail cfg e a (Event.wait (waitDuration cfg a) true) rfl]
          simp
        · rw [getLast?_append_snoc]
          simp
      · rw [h]
        apply ih (a + 1) (some e) _ (by omega)
        refine Or.inr ⟨⟨e, rfl, ?_⟩, ?_⟩
        · rw [iterationLog, opResults_append,
            opResults_tail cfg e a (Event.wait (waitDuration cfg a) false) rfl]
          simp
        · rw [iterationLog, getLast?_append_snoc]
          simp
    · rw [retryLoop_exit cfg ctx operation _ a err log (Nat.le_of_not_lt hlt)]
      rcases hinv with hlt' | ⟨⟨e, he, hlast⟩, hev⟩
      · exact absurd hlt' hlt
      · exact Or.inr ⟨by rw [he]; exact Option.some_ne_none e, ⟨e, hlast⟩, hev⟩

/-- C17. In every run, `Retry` returns `nil` if and only if `maxAttempts = 0` or
the last call of the operation it made returned `nil`.  In particular, with
`maxAttempts ≥ 1`, a run whose last event is a call of the stop predicate (early
stop), a call of the hook (veto) or a wait (cancellation when the context was
done, exhaustion when the timer elapsed) returns a non-nil error. -/
theorem nil_iff_success (ctx : Nat → Int → Bool) (operation : Nat → Option ε)
    (opts : List (RetryOption ε)) :
    ((Retry ctx operation opts).1 = none ↔
      ((resolveConfig opts).maxAttempts = 0 ∨
        (opResults (Retry ctx operation opts).2).getLast? = some none)) ∧
    (1 ≤ (resolveConfig opts).maxAttempts →
      (∀ e b, (Retry ctx operation opts).2.getLast? = some (Event.stopRetryIf e b) →
        (Retry ctx operation opts).1 ≠ none) ∧
      (∀ n r, (Retry ctx operation opts).2.getLast? = some (Event.onRetry n r) →
        (Retry ctx operation opts).1 ≠ none) ∧
      (∀ d b, (Retry ctx operation opts).2.getLast? = some (Event.wait d b) →
        (Retry ctx operation opts).1 ≠ none)) := by
  by_cases h0 : (resolveConfig opts).maxAttempts = 0
  · have hrun : Retry ctx operation opts = (none, []) :=
      retryLoop_exit (resolveConfig opts) ctx operation _ 0 none [] (by omega)
    rw [hrun]
    exact ⟨⟨fun _ => Or.inl h0, fun _ => rfl⟩, fun h1 => absurd h0 (by omega)⟩
  · have h := retryLoop_nil_iff (resolveConfig opts) ctx operation
      (resolveConfig opts).maxAttempts 0 none [] (by omega) (Or.inl (by omega))
    have hne : ∀ ev, ev ≠ Event.operation none →
        (Retry ctx operation opts).2.getLast? = some ev → (Retry ctx operation opts).1 ≠ none := by
      intro ev hev hlast
      rcases h with ⟨_, _, hl⟩ | ⟨hr, _, _⟩
      · exact absurd (Option.some.inj (hlast.symm.trans hl)) hev
      · exact hr
    refine ⟨⟨?_, ?_⟩, fun _ => ⟨fun e b => hne _ (by simp), fun n r => hne _ (by simp),
      fun d b => hne _ (by simp)⟩⟩
    · intro hnil
      rcases h with ⟨_, hl, _⟩ | ⟨hr, _, _⟩
      · exact Or.inr hl
      · exact absurd hnil hr
    · intro hor
      rcases hor with hz | hl
      · exact absurd hz h0
      · rcases h with ⟨hr, _, _⟩ | ⟨_, ⟨e, he⟩, _⟩
        · exact hr
        · exact absurd (hl.symm.trans he) (by simp)

/-- C17 on the run of the test "Should failed and return error" (`MaxAttempts(1)`,
an operation that fails, a hook): the run ends on a wait, so the result is not
`nil`. -/
theorem nil_iff_success_witness :
    (Retry background alwaysFails [MaxAttempts 1, OnRetry (some hookNil)]).1 ≠ none :=
  ((nil_iff_success background alwaysFails [MaxAttempts 1, OnRetry (some hookNil)]).2
    (by decide)).2.2 (waitDuration
      (resolveConfig ([MaxAttempts 1, OnRetry (some hookNil)] : List (RetryOption TestErr))) 0)
    false (by decide)

end retry
